import Mathlib

/-!
Verification of the sconfig persistence layer.

The repository has two components:

* class `Properties` (structured, YAML-like, comment-annotated config store):
  constructor resolves a path, loads or creates the backing file from a
  template, regenerates the file when it is unparsable, and reconciles the
  live key set against the template's default key set; `setValue` / `addValue`
  mutate one key and immediately rewrite and re-read the file.
* class `Storage` (key-value store): resolves a path per domain
  (player / world / server), selects a backend from the file extension
  (`.json` or `.sqlite`), merges persisted data over supplied defaults, and
  persists on every `setValue`.

Modelling conventions used throughout this file:

* a JavaScript string is modelled as `List Char` (`Str`);
* a text file is modelled as its list of lines (`Content`); the source only
  ever appends or rewrites whole lines, so the line model is exact as long as
  the inserted keys and values contain no newline character — the `goodKey` /
  `goodVal` hypotheses of the theorems record that boundary;
* a JavaScript object is modelled as an association list built with
  `insertKV`, which reproduces object-assignment semantics exactly
  (an existing key is overwritten in place, a new key is appended);
* the filesystem is explicit state: `Option Content` for the Properties file,
  and for Storage an environment describing the backing JSON file and the
  sqlite table rows, plus flags for the failure modes the source catches;
* the YAML parser is modelled on the format the spec defines and the source
  relies on: a line-oriented `key: value` format with `#`-prefixed comment
  lines and blank lines; a document with an invalid line, or with no
  key-value line at all, is unparsable (the source treats a thrown parse
  error and a `null` parse result identically);
* log output is modelled as a list of `LogMsg` tags so that the
  diagnostic-emission claims are statable; purely cosmetic log lines that no
  claim mentions are omitted.
-/

set_option maxHeartbeats 1000000

namespace SConfig

/-- A JavaScript string, modelled as its list of characters. -/
abbrev Str := List Char

/-- A JavaScript object holding string-valued entries, as an association list. -/
abbrev KV := List (Str × Str)

/-- A text file's content, as its list of lines. -/
abbrev Content := List Str

/-- Key membership test, as in JS `Object.keys(obj).includes(key)`. -/
def hasKey (m : KV) (k : Str) : Bool :=
  m.any (fun p => p.1 == k)

/-- Overwrite the value of `k` in place wherever it occurs (no-op if absent). -/
def setIfPresent (m : KV) (k v : Str) : KV :=
  m.map (fun p => if p.1 = k then (k, v) else p)

/-- JS object assignment `obj[k] = v`: overwrite in place, else append. -/
def insertKV (m : KV) (k v : Str) : KV :=
  if hasKey m k then setIfPresent m k v else m ++ [(k, v)]

/-- Lookup `obj[k]`: first binding wins (keys of object-built maps are unique). -/
def getKV : KV → Str → Option Str
  | [], _ => none
  | p :: m, k => if p.1 = k then some p.2 else getKV m k

/-- JS object spread `\x7b ...a, ...b \x7d`: entries of `b` override those of `a`. -/
def spreadMerge (a b : KV) : KV :=
  b.foldl (fun m p => insertKV m p.1 p.2) a

/-- The key list of an association list. -/
def keysOf (m : KV) : List Str :=
  m.map Prod.fst

/-!
The structured-config text format (spec section 6): a line-oriented
`key: value` format with `#`-prefixed comment lines, one key per top-level
line.  `parseContent` models the library parse call used by `Properties`: a
document with an invalid line, or with no key-value line at all, yields
`none` (the source treats a thrown parse error and a `null` parse result
the same way, regenerating the file).
-/

/-- A line consisting only of whitespace. -/
def isBlankLine (l : Str) : Bool :=
  l.all (fun c => c.isWhitespace)

/-- The first non-whitespace character of a line, if any. -/
def firstNonWs (l : Str) : Option Char :=
  (l.dropWhile (fun c => c.isWhitespace)).head?

/-- A comment line: first non-whitespace character is a hash. -/
def isCommentLine (l : Str) : Bool :=
  firstNonWs l == some '#'

/-- Split a line at its first colon, returning the parts before and after. -/
def breakAtColon : Str → Option (Str × Str)
  | [] => none
  | c :: cs =>
    if c = ':' then some ([], cs)
    else
      match breakAtColon cs with
      | none => none
      | some p => some (c :: p.1, p.2)

/-- Drop the single space separating a colon from the value, when present. -/
def dropLeadSpace : Str → Str
  | ' ' :: rest => rest
  | s => s

/-- Parse the remaining lines, accumulating key-value pairs into `m`. -/
def parseLines : Content → KV → Option KV
  | [], m => some m
  | l :: ls, m =>
    if isBlankLine l then parseLines ls m
    else if isCommentLine l then parseLines ls m
    else
      match breakAtColon l with
      | some p => if p.1.isEmpty then none else parseLines ls (insertKV m p.1 (dropLeadSpace p.2))
      | none => none

/-- Parse a whole document; a document with no key-value line is `none`. -/
def parseContent (c : Content) : Option KV :=
  match parseLines c [] with
  | some (p :: m) => some (p :: m)
  | _ => none

/-- The line `key: value` as the source writes it. -/
def kvLine (k v : Str) : Str :=
  k ++ ':' :: ' ' :: v

/-- A key the line format can faithfully carry: nonempty, no colon, no
newline, and not beginning (after whitespace) with a hash. -/
def goodKey (k : Str) : Bool :=
  !k.isEmpty && k.all (fun c => !(c == ':')) && k.all (fun c => !(c == '\n'))
    && !(firstNonWs k == some '#')

/-- A value the line format can faithfully carry: no newline. -/
def goodVal (v : Str) : Bool :=
  v.all (fun c => !(c == '\n'))

/-- The per-line action of the source's `replaceAll` with the multiline
regular expression `^key:.*$`: a line beginning with `key:` is replaced
wholesale by the line `key: value`; every other line is untouched. -/
def replLine (k v : Str) (l : Str) : Str :=
  if (k ++ [':']).isPrefixOf l then kvLine k v else l

/-!
The `Properties` class.  State: the backing file (`none` when the file does
not exist), the `raw` text (as lines), and the parsed `values` mapping
(`none` models the `null` the constructor stores when the parse fails).
Filesystem path resolution is modelled separately (`propertiesPath`); the
constructor logic below is independent of the concrete path.  The
debug-gated log lines of this class are not needed by any claim and are
omitted from the state.
-/

structure PropertiesState where
  file : Option Content
  raw : Content
  values : Option KV

deriving DecidableEq

namespace Properties

/-- Method `read`: create the file from the template when absent, then read
it, remember the raw text and return the parse result. -/
def read (template : Content) (st : PropertiesState) : PropertiesState :=
  let content := st.file.getD template
  { file := some content, raw := content, values := parseContent content }

/-- Method `write`: write `raw` to disk, then re-read and re-parse. -/
def write (st : PropertiesState) : PropertiesState :=
  { file := some st.raw, raw := st.raw, values := parseContent st.raw }

/-- Method `getValue`: pure in-memory lookup. -/
def getValue (st : PropertiesState) (k : Str) : Option Str :=
  getKV (st.values.getD []) k

/-- The non-delegating branch of `setValue`: update the value in memory,
substitute the key's line in the raw text, and write. -/
def setValueCore (st : PropertiesState) (k v : Str) : PropertiesState :=
  write { st with
    values := some (insertKV (st.values.getD []) k v),
    raw := st.raw.map (replLine k v) }

/-- The non-delegating branch of `addValue`: update the value in memory,
append `\nkey: value\n` and, when a message is given, a `# message` line,
and write. -/
def addValueCore (st : PropertiesState) (k v msg : Str) : PropertiesState :=
  write { st with
    values := some (insertKV (st.values.getD []) k v),
    raw := st.raw ++ [kvLine k v]
      ++ (if msg.isEmpty then [] else ['#' :: ' ' :: msg]) ++ [[]] }

/-- Method `setValue`: delegate to the add path when the key is absent
(the delegate re-checks the unchanged state and takes its own add branch,
so the composition is the one-step unfolding written here). -/
def setValue (st : PropertiesState) (k v : Str) : PropertiesState :=
  if hasKey (st.values.getD []) k then setValueCore st k v
  else addValueCore st k v []

/-- Method `addValue`: delegate to the set path when the key is present. -/
def addValue (st : PropertiesState) (k v msg : Str) : PropertiesState :=
  if hasKey (st.values.getD []) k then setValueCore st k v
  else addValueCore st k v msg

/-- Scan for the first line (after the first) starting with `key:` and
return the immediately following line when it is a comment; models
`template.split("\n" + key + ":")[1]` followed by taking its second line. -/
def commentScan (k : Str) : Content → Str
  | [] => []
  | l :: rest =>
    if (k ++ [':']).isPrefixOf l then
      match rest with
      | [] => []
      | nxt :: _ =>
        if (k ++ [':']).isPrefixOf nxt then []
        else if nxt.head? = some '#' then nxt else []
    else commentScan k rest

/-- The comment the constructor attaches to a missing key, fetched from the
template text. -/
def commentFor (template : Content) (k : Str) : Str :=
  match template with
  | [] => []
  | _ :: rest => commentScan k rest

/-- The constructor's reconciliation loop: for every key of the parsed
template defaults that is missing from `values`, add it with its default
value and its template comment. -/
def reconcile (template : Content) (st : PropertiesState) : PropertiesState :=
  match parseContent template with
  | none => st
  | some defs =>
      defs.foldl
        (fun s p =>
          if hasKey (s.values.getD []) p.1 then s
          else addValue s p.1 p.2 (commentFor template p.1))
        st

/-- The constructor: read (creating the file from the template when
absent); when the parse failed or yielded `null`, delete the file and read
again (which rewrites it from the template); then reconcile against the
template defaults. -/
def construct (template : Content) (file0 : Option Content) : PropertiesState :=
  let st1 := read template (PropertiesState.mk file0 [] none)
  let st2 := if st1.values.isSome then st1
             else read template { st1 with file := none }
  reconcile template st2

end Properties

mutual

/-- Fuel-indexed `setValue`, with the source's actual mutual delegation to
`addValue` left in place; `none` would mean the fuel ran out before the
call chain terminated. -/
def setValueFuel : Nat → PropertiesState → Str → Str → Option PropertiesState
  | 0, _, _, _ => none
  | n + 1, st, k, v =>
    if hasKey (st.values.getD []) k then some (Properties.setValueCore st k v)
    else addValueFuel n st k v []

/-- Fuel-indexed `addValue`, delegating back to `setValue` when the key is
present. -/
def addValueFuel : Nat → PropertiesState → Str → Str → Str → Option PropertiesState
  | 0, _, _, _, _ => none
  | n + 1, st, k, v, msg =>
    if hasKey (st.values.getD []) k then setValueFuel n st k v
    else some (Properties.addValueCore st k v msg)

end

/-!
The `Storage` class.  The storage-domain enum lives in a source file
(`src/Enums/storageType`) that is not part of the provided sources.
Modelled from the spec: the domain is one of Player, World, Server, and
nothing else.  The rest of the class is modelled from the source: path
resolution per domain, backend selection by file extension, JSON or sqlite
initialization with merge-over-defaults, and per-call persistence.
-/

inductive StorageType
  | world
  | player
  | server

deriving DecidableEq

/-- The source's `this.type` field, `"json" | "sqlite"`. -/
inductive Backend
  | json
  | sqlite

deriving DecidableEq

/-- Construction-time errors thrown by the `Storage` constructor. -/
inductive StorageErr
  | invalidWorldName
  | invalidExtension

deriving DecidableEq

/-- Diagnostics the class emits, by kind. -/
inductive LogMsg
  | jsonReadWarn
  | sqliteReadWarn
  | sqliteWriteError
  | parsedOk

deriving DecidableEq

/-- The environment a `Storage` instance is constructed in: the backing
JSON file (`none` absent, `some none` present but undeserializable,
`some (some m)` deserializes to `m`), the rows already in the sqlite
table, whether reading the table fails, whether row upserts fail, and the
debug flag. -/
structure StorageEnv where
  jsonFile : Option (Option KV)
  dbRows : KV
  dbReadFails : Bool
  dbWriteFails : Bool
  debug : Bool

deriving DecidableEq

structure StorageState where
  stype : Backend
  values : KV
  jsonFile : Option (Option KV)
  db : KV
  logs : List LogMsg

deriving DecidableEq

/-!
Path resolution utilities, modelling the `node:path` functions the source
uses.  Paths are manipulated as raw strings and, after resolution, as lists
of segments.
-/

/-- Split a string on every occurrence of the separator character. -/
def splitChar (sep : Char) : Str → List Str
  | [] => [[]]
  | c :: cs =>
    let r := splitChar sep cs
    if c = sep then [] :: r
    else
      match r with
      | [] => [[c]]
      | h :: t => (c :: h) :: t

/-- `path.extname`: the extension of the basename, from its last dot;
a lone leading dot (a dotfile) has no extension. -/
def extname (s : Str) : Str :=
  let base := (splitChar '/' s).getLastD []
  match splitChar '.' base with
  | [] => []
  | [_] => []
  | p :: rest =>
    if p.isEmpty && rest.length == 1 then []
    else '.' :: rest.getLastD []

/-- JS `String.prototype.replace` with a string pattern: replace the first
occurrence only (and when the pattern never occurs, return the string
unchanged). -/
def replaceFirst (pat rep : Str) : Str → Str
  | [] => if pat.isEmpty then rep else []
  | c :: cs =>
    if pat.isPrefixOf (c :: cs) then rep ++ (c :: cs).drop pat.length
    else c :: replaceFirst pat rep cs

/-- One step of `path.resolve` segment normalization: drop empty segments,
ignore `.`, and let `..` pop the last collected segment. -/
def normStep (acc : List Str) (seg : Str) : List Str :=
  if seg.isEmpty then acc
  else if seg = ['.'] then acc
  else if seg = ['.', '.'] then acc.dropLast
  else acc ++ [seg]

/-- `path.resolve` over already-absolute input: split every argument on the
separator and normalize the resulting segments left to right. -/
def resolveSegs (sep : Char) (parts : List Str) : List Str :=
  (parts.flatMap (splitChar sep)).foldl normStep []

/-- The `Properties` constructor's path computation:
`resolve(plugin.path.replace("\\plugins\\", "\\config\\"), "..", plugin.identifier, path)`. -/
def propertiesPath (pluginPath identifier relPath : Str) (sep : Char) : List Str :=
  resolveSegs sep
    [replaceFirst
        ['\\', 'p', 'l', 'u', 'g', 'i', 'n', 's', '\\']
        ['\\', 'c', 'o', 'n', 'f', 'i', 'g', '\\']
        pluginPath,
      ['.', '.'], identifier, relPath]

/-- Normalized segments of a root path. -/
def rootSegs (sep : Char) (root : Str) : List Str :=
  (splitChar sep root).foldl normStep []

/-- A string usable as a single path segment: nonempty, separator-free and
not a dot-segment. -/
def cleanSeg (sep : Char) (s : Str) : Bool :=
  !s.isEmpty && s.all (fun c => !(c == sep)) && !(s == ['.']) && !(s == ['.', '.'])

namespace Storage

/-- Method `resolvePath`: domain-specific directory under the working
directory; a World store with no (or an empty) world name is an error. -/
def resolvePath (type : StorageType) (cwd : List Str) (path : Str)
    (world : Option Str) : Except StorageErr (List Str) :=
  match type with
  | .world =>
    match world with
    | none => .error .invalidWorldName
    | some w =>
      if w.isEmpty then .error .invalidWorldName
      else .ok (cwd ++ [['w','o','r','l','d','s'], w,
        ['p','l','u','g','i','n','d','a','t','a'], path])
  | .player => .ok (cwd ++ [['p','l','a','y','e','r','d','a','t','a'], path])
  | .server => .ok (cwd ++ [['p','l','u','g','i','n','d','a','t','a'], path])

/-- Method `writeJson`: serialize the whole `values` object to the file. -/
def writeJson (st : StorageState) : StorageState :=
  { st with jsonFile := some (some st.values) }

/-- Method `readJson`: deserialize and merge over defaults; any read or
parse failure falls back to the current values, warning when debugging. -/
def readJson (dbg : Bool) (st : StorageState) : StorageState :=
  match st.jsonFile with
  | some (some data) => { st with values := spreadMerge st.values data }
  | _ => if dbg then { st with logs := st.logs ++ [LogMsg.jsonReadWarn] } else st

/-- The single-row upsert statement run; the flag models the engine
failing. -/
def upsert (wfail : Bool) (db : KV) (k v : Str) : Except Unit KV :=
  if wfail then .error () else .ok (insertKV db k v)

/-- Method `writeSqlite`: run the upsert, catching a failure and reporting
it as an error. -/
def writeSqlite (wfail : Bool) (st : StorageState) (k v : Str) : StorageState :=
  match upsert wfail st.db k v with
  | .ok db => { st with db := db }
  | .error _ => { st with logs := st.logs ++ [LogMsg.sqliteWriteError] }

/-- The object built from the table rows (`dbValues`). -/
def buildObj (rows : KV) : KV :=
  rows.foldl (fun m p => insertKV m p.1 p.2) []

/-- Method `readSqlite`: load all rows, merge them over the defaults, and
seed the table with every value when it was empty; a read failure warns
(unconditionally) and leaves values untouched. -/
def readSqlite (env : StorageEnv) (st : StorageState) : StorageState :=
  if env.dbReadFails then { st with logs := st.logs ++ [LogMsg.sqliteReadWarn] }
  else
    let merged := { st with values := spreadMerge st.values (buildObj st.db) }
    if st.db.isEmpty then
      merged.values.foldl (fun s p => writeSqlite env.dbWriteFails s p.1 p.2) merged
    else merged

/-- Method `initialize` (named `initStorage` here): create or load the
backing artifact, then log success when debugging. -/
def initStorage (env : StorageEnv) (st : StorageState) : StorageState :=
  let st2 :=
    match st.stype with
    | .json =>
      match st.jsonFile with
      | none => writeJson st
      | some _ => readJson env.debug st
    | .sqlite => readSqlite env st
  if env.debug then { st2 with logs := st2.logs ++ [LogMsg.parsedOk] } else st2

/-- The constructor: resolve the path, pick the backend from the file
extension (anything other than `.json` / `.sqlite` is an error), then
initialize. -/
def construct (env : StorageEnv) (type : StorageType) (cwd : List Str)
    (path : Str) (world : Option Str) (defaults : KV) :
    Except StorageErr StorageState :=
  match resolvePath type cwd path world with
  | .error e => .error e
  | .ok p =>
    let ext := extname (p.getLastD [])
    if ext = ['.','j','s','o','n'] then
      .ok (initStorage env ⟨Backend.json, defaults, env.jsonFile, env.dbRows, []⟩)
    else if ext = ['.','s','q','l','i','t','e'] then
      .ok (initStorage env ⟨Backend.sqlite, defaults, env.jsonFile, env.dbRows, []⟩)
    else .error .invalidExtension

/-- Method `getValue`: pure in-memory lookup. -/
def getValue (st : StorageState) (k : Str) : Option Str :=
  getKV st.values k

/-- Method `setValue`: update memory first, then persist through the
backend. -/
def setValue (wfail : Bool) (st : StorageState) (k v : Str) : StorageState :=
  let st2 := { st with values := insertKV st.values k v }
  match st2.stype with
  | .json => writeJson st2
  | .sqlite => writeSqlite wfail st2 k v

end Storage

/-! ## Theorems -/

lemma hasKey_nil (k : Str) : hasKey [] k = false := rfl

lemma hasKey_cons (p : Str × Str) (m : KV) (k : Str) :
    hasKey (p :: m) k = ((p.1 == k) || hasKey m k) := by
  simp [hasKey]

lemma hasKey_iff_mem (m : KV) (k : Str) :
    hasKey m k = true ↔ k ∈ keysOf m := by
  simp only [hasKey, keysOf, List.any_eq_true, List.mem_map, beq_iff_eq]

lemma hasKey_false_iff (m : KV) (k : Str) :
    hasKey m k = false ↔ ¬ k ∈ keysOf m := by
  rw [← hasKey_iff_mem]
  constructor
  · intro h hh
    rw [h] at hh
    cases hh
  · intro h
    exact Bool.eq_false_iff.mpr h

lemma hasKey_append (a b : KV) (k : Str) :
    hasKey (a ++ b) k = (hasKey a k || hasKey b k) := by
  simp [hasKey]

lemma keysOf_setIfPresent (m : KV) (k v : Str) :
    keysOf (setIfPresent m k v) = keysOf m := by
  induction m with
  | nil => rfl
  | cons p m ih =>
    simp only [setIfPresent, keysOf, List.map_cons] at ih ⊢
    by_cases h : p.1 = k
    · rw [if_pos h]
      exact List.cons_eq_cons.mpr ⟨h.symm, ih⟩
    · rw [if_neg h]
      exact List.cons_eq_cons.mpr ⟨rfl, ih⟩

lemma hasKey_eq_any_keys (m : KV) (k : Str) :
    hasKey m k = (keysOf m).any (fun x => x == k) := by
  induction m with
  | nil => rfl
  | cons p m ih =>
    simp only [hasKey, keysOf, List.map_cons, List.any_cons] at ih ⊢
    rw [ih]

lemma hasKey_setIfPresent (m : KV) (k v k' : Str) :
    hasKey (setIfPresent m k v) k' = hasKey m k' := by
  rw [hasKey_eq_any_keys, hasKey_eq_any_keys, keysOf_setIfPresent]

lemma setIfPresent_of_not_has (m : KV) (k v : Str) (h : hasKey m k = false) :
    setIfPresent m k v = m := by
  induction m with
  | nil => rfl
  | cons p m ih =>
    rw [hasKey_cons] at h
    simp only [Bool.or_eq_false_iff, beq_eq_false_iff_ne, ne_eq] at h
    simp only [setIfPresent, List.map_cons, if_neg h.1] at ih ⊢
    rw [ih h.2]

lemma getKV_setIfPresent_self (m : KV) (k v : Str) (h : hasKey m k = true) :
    getKV (setIfPresent m k v) k = some v := by
  induction m with
  | nil => simp [hasKey] at h
  | cons p m ih =>
    by_cases hp : p.1 = k
    · simp [setIfPresent, if_pos hp, getKV]
    · rw [hasKey_cons] at h
      simp only [Bool.or_eq_true, beq_iff_eq] at h
      rcases h with h | h
      · exact absurd h hp
      · simp only [setIfPresent, List.map_cons, if_neg hp] at ih ⊢
        simp only [getKV, if_neg hp]
        exact ih h

lemma getKV_setIfPresent_ne (m : KV) (k v k' : Str) (h : k' ≠ k) :
    getKV (setIfPresent m k v) k' = getKV m k' := by
  induction m with
  | nil => rfl
  | cons p m ih =>
    simp only [setIfPresent, List.map_cons] at ih ⊢
    by_cases hp : p.1 = k
    · have h1 : k ≠ k' := fun hh => h hh.symm
      have h2 : p.1 ≠ k' := hp ▸ h1
      simp only [if_pos hp, getKV, if_neg h1, if_neg h2]
      exact ih
    · simp only [if_neg hp, getKV]
      by_cases hq : p.1 = k'
      · simp [if_pos hq]
      · simp only [if_neg hq]
        exact ih

lemma getKV_append_left (a b : KV) (k : Str) (h : hasKey a k = true) :
    getKV (a ++ b) k = getKV a k := by
  induction a with
  | nil => simp [hasKey] at h
  | cons p a ih =>
    by_cases hp : p.1 = k
    · simp [getKV, if_pos hp]
    · rw [hasKey_cons] at h
      simp only [Bool.or_eq_true, beq_iff_eq] at h
      rcases h with h | h
      · exact absurd h hp
      · simp [getKV, if_neg hp, ih h]

lemma getKV_append_right (a b : KV) (k : Str) (h : hasKey a k = false) :
    getKV (a ++ b) k = getKV b k := by
  induction a with
  | nil => rfl
  | cons p a ih =>
    rw [hasKey_cons] at h
    simp only [Bool.or_eq_false_iff, beq_eq_false_iff_ne, ne_eq] at h
    simp [getKV, if_neg h.1, ih h.2]

lemma getKV_none_of_not_has (m : KV) (k : Str) (h : hasKey m k = false) :
    getKV m k = none := by
  induction m with
  | nil => rfl
  | cons p m ih =>
    rw [hasKey_cons] at h
    simp only [Bool.or_eq_false_iff, beq_eq_false_iff_ne, ne_eq] at h
    simp [getKV, if_neg h.1, ih h.2]

lemma getKV_insertKV_self (m : KV) (k v : Str) :
    getKV (insertKV m k v) k = some v := by
  unfold insertKV
  by_cases h : hasKey m k = true
  · rw [if_pos h]; exact getKV_setIfPresent_self m k v h
  · have h' : hasKey m k = false := Bool.eq_false_iff.mpr h
    rw [h']
    simp only [Bool.false_eq_true, if_false]
    rw [getKV_append_right _ _ _ h']
    simp [getKV]

lemma getKV_insertKV_ne (m : KV) (k v k' : Str) (h : k' ≠ k) :
    getKV (insertKV m k v) k' = getKV m k' := by
  unfold insertKV
  by_cases hh : hasKey m k = true
  · rw [if_pos hh]; exact getKV_setIfPresent_ne m k v k' h
  · have hf : hasKey m k = false := Bool.eq_false_iff.mpr hh
    rw [hf]
    simp only [Bool.false_eq_true, if_false]
    by_cases hk' : hasKey m k' = true
    · exact getKV_append_left _ _ _ hk'
    · have hk'' : hasKey m k' = false := Bool.eq_false_iff.mpr hk'
      rw [getKV_append_right _ _ _ hk'', getKV_none_of_not_has _ _ hk'']
      simp [getKV, if_neg (fun hx : k = k' => h hx.symm)]

lemma hasKey_insertKV (m : KV) (k v k' : Str) :
    hasKey (insertKV m k v) k' = (hasKey m k' || (k == k')) := by
  unfold insertKV
  by_cases h : hasKey m k = true
  · rw [if_pos h, hasKey_setIfPresent]
    by_cases hk : k = k'
    · subst hk; simp [h]
    · simp [hk]
  · rw [Bool.eq_false_iff.mpr h]
    simp only [Bool.false_eq_true, if_false]
    rw [hasKey_append]
    simp [hasKey]

lemma keysOf_insertKV_of_not_has (m : KV) (k v : Str) (h : hasKey m k = false) :
    keysOf (insertKV m k v) = keysOf m ++ [k] := by
  unfold insertKV
  rw [h]
  simp [keysOf]

lemma keysOf_insertKV_of_has (m : KV) (k v : Str) (h : hasKey m k = true) :
    keysOf (insertKV m k v) = keysOf m := by
  unfold insertKV
  rw [if_pos h, keysOf_setIfPresent]

lemma insertKV_of_not_has (m : KV) (k v : Str) (h : hasKey m k = false) :
    insertKV m k v = m ++ [(k, v)] := by
  unfold insertKV
  rw [h]
  simp

lemma nodup_keysOf_insertKV (m : KV) (k v : Str) (h : (keysOf m).Nodup) :
    (keysOf (insertKV m k v)).Nodup := by
  by_cases hh : hasKey m k = true
  · rw [keysOf_insertKV_of_has m k v hh]; exact h
  · have hf : hasKey m k = false := Bool.eq_false_iff.mpr hh
    rw [keysOf_insertKV_of_not_has m k v hf]
    have hnot : ¬ k ∈ keysOf m := (hasKey_false_iff m k).mp hf
    simp [List.nodup_append, h, hnot]

lemma getKV_eq_of_mem (m : KV) (k v : Str) (hnd : (keysOf m).Nodup)
    (h : (k, v) ∈ m) : getKV m k = some v := by
  induction m with
  | nil => cases h
  | cons p m ih =>
    simp only [keysOf, List.map_cons, List.nodup_cons] at hnd
    rcases List.mem_cons.mp h with h | h
    · rw [← h]
      simp [getKV]
    · have hk : k ∈ keysOf m := by
        rw [keysOf, List.mem_map]
        exact ⟨(k, v), h, rfl⟩
      have hne : p.1 ≠ k := fun hh => hnd.1 (hh ▸ hk)
      simp only [getKV, if_neg hne]
      exact ih hnd.2 h

lemma spreadMerge_nil (a : KV) : spreadMerge a [] = a := rfl

lemma spreadMerge_cons (a : KV) (p : Str × Str) (b : KV) :
    spreadMerge a (p :: b) = spreadMerge (insertKV a p.1 p.2) b := rfl

lemma hasKey_spreadMerge_left (a b : KV) (k : Str) (h : hasKey a k = true) :
    hasKey (spreadMerge a b) k = true := by
  induction b generalizing a with
  | nil => exact h
  | cons p b ih =>
    rw [spreadMerge_cons]
    exact ih _ (by rw [hasKey_insertKV, h, Bool.true_or])

lemma getKV_spreadMerge_notin (a b : KV) (k : Str) (h : hasKey b k = false) :
    getKV (spreadMerge a b) k = getKV a k := by
  induction b generalizing a with
  | nil => rfl
  | cons p b ih =>
    rw [hasKey_cons] at h
    simp only [Bool.or_eq_false_iff, beq_eq_false_iff_ne, ne_eq] at h
    rw [spreadMerge_cons, ih _ h.2, getKV_insertKV_ne]
    intro hh
    exact h.1 hh.symm

lemma getKV_spreadMerge_right (a b : KV) (k : Str) (hnd : (keysOf b).Nodup)
    (h : hasKey b k = true) : getKV (spreadMerge a b) k = getKV b k := by
  induction b generalizing a with
  | nil => simp [hasKey] at h
  | cons p b ih =>
    simp only [keysOf, List.map_cons, List.nodup_cons] at hnd
    rw [spreadMerge_cons]
    by_cases hp : p.1 = k
    · have hb : hasKey b k = false := by
        rw [hasKey_false_iff]
        intro hk
        exact hnd.1 (hp ▸ hk)
      rw [getKV_spreadMerge_notin _ _ _ hb, hp, getKV_insertKV_self]
      simp [getKV, if_pos hp]
    · have hb : hasKey b k = true := by
        rw [hasKey_cons] at h
        simp only [Bool.or_eq_true, beq_iff_eq] at h
        rcases h with h | h
        · exact absurd h hp
        · exact h
      rw [ih _ hnd.2 hb]
      simp [getKV, if_neg hp]

lemma setIfPresent_setIfPresent (m : KV) (k v' v : Str) :
    setIfPresent (setIfPresent m k v') k v = setIfPresent m k v := by
  unfold setIfPresent
  rw [List.map_map]
  apply List.map_congr_left
  intro p _
  by_cases h : p.1 = k
  · simp [Function.comp, if_pos h]
  · simp [Function.comp, if_neg h]

lemma setIfPresent_append (a b : KV) (k v : Str) :
    setIfPresent (a ++ b) k v = setIfPresent a k v ++ setIfPresent b k v := by
  unfold setIfPresent
  exact List.map_append _ a b

lemma setIfPresent_comm (m : KV) (k v k' v' : Str) (h : k ≠ k') :
    setIfPresent (setIfPresent m k v) k' v' = setIfPresent (setIfPresent m k' v') k v := by
  unfold setIfPresent
  rw [List.map_map, List.map_map]
  apply List.map_congr_left
  intro p _
  by_cases h1 : p.1 = k
  · have h2 : p.1 ≠ k' := h1 ▸ h
    simp [Function.comp, if_pos h1, if_neg h2, if_neg h, if_neg (fun hh : k = k' => h hh)]
  · by_cases h2 : p.1 = k'
    · have h3 : k' ≠ k := fun hh => h hh.symm
      simp [Function.comp, if_pos h2, if_neg h1, if_neg h3]
    · simp [Function.comp, if_neg h1, if_neg h2]

lemma insertKV_setIfPresent_ne (m : KV) (k v k' v' : Str) (h : k' ≠ k) :
    insertKV (setIfPresent m k v) k' v' = setIfPresent (insertKV m k' v') k v := by
  unfold insertKV
  rw [hasKey_setIfPresent]
  by_cases hh : hasKey m k' = true
  · rw [if_pos hh, if_pos hh]
    exact setIfPresent_comm m k v k' v' (fun hx => h hx.symm)
  · have hf : hasKey m k' = false := Bool.eq_false_iff.mpr hh
    rw [hf]
    simp only [Bool.false_eq_true, if_false]
    rw [setIfPresent_append]
    have : setIfPresent [(k', v')] k v = [(k', v')] := by
      simp [setIfPresent, if_neg h]
    rw [this]

lemma insertKV_setIfPresent_self (m : KV) (k v' v : Str) :
    insertKV (setIfPresent m k v') k v = setIfPresent (insertKV m k v') k v := by
  unfold insertKV
  rw [hasKey_setIfPresent]
  by_cases hh : hasKey m k = true
  · rw [if_pos hh, if_pos hh, setIfPresent_setIfPresent]
  · have hf : hasKey m k = false := Bool.eq_false_iff.mpr hh
    rw [hf]
    simp only [Bool.false_eq_true, if_false]
    rw [setIfPresent_of_not_has m k v' hf, setIfPresent_append,
      setIfPresent_of_not_has m k v hf]
    simp [setIfPresent]

lemma setIfPresent_ne_nil (m : KV) (k v : Str) (h : m ≠ []) :
    setIfPresent m k v ≠ [] := by
  cases m with
  | nil => exact absurd rfl h
  | cons p m => simp [setIfPresent]

lemma parseContent_eq_some (c : Content) (m : KV) :
    parseContent c = some m ↔ parseLines c [] = some m ∧ m ≠ [] := by
  unfold parseContent
  cases h : parseLines c [] with
  | none => simp
  | some m' =>
    cases m' with
    | nil => simp
    | cons p rest =>
      constructor
      · intro hh
        exact ⟨by simpa using hh, by intro hx; rw [← Option.some_inj.mp hh] at hx; cases hx⟩
      · intro hh
        simpa using hh.1

lemma parseLines_cons (l : Str) (ls : Content) (m : KV) :
    parseLines (l :: ls) m =
      (if isBlankLine l then parseLines ls m
       else if isCommentLine l then parseLines ls m
       else
         match breakAtColon l with
         | some p =>
             if p.1.isEmpty then none
             else parseLines ls (insertKV m p.1 (dropLeadSpace p.2))
         | none => none) := rfl

lemma parseLines_append (c₁ c₂ : Content) (m : KV) :
    parseLines (c₁ ++ c₂) m = (parseLines c₁ m).bind (fun m' => parseLines c₂ m') := by
  induction c₁ generalizing m with
  | nil => rfl
  | cons l ls ih =>
    rw [List.cons_append, parseLines_cons, parseLines_cons]
    by_cases hb : isBlankLine l = true
    · rw [if_pos hb, if_pos hb, ih]
    · rw [if_neg hb, if_neg hb]
      by_cases hc : isCommentLine l = true
      · rw [if_pos hc, if_pos hc, ih]
      · rw [if_neg hc, if_neg hc]
        cases hbreak : breakAtColon l with
        | none => rfl
        | some p =>
          by_cases hk : p.1.isEmpty = true
          · simp [hk]
          · simp only [hk, Bool.false_eq_true, if_false]
            rw [ih]

lemma breakAtColon_kvLine (k : Str) (rest : Str)
    (h : k.all (fun c => !(c == ':')) = true) :
    breakAtColon (k ++ ':' :: rest) = some (k, rest) := by
  induction k with
  | nil => rfl
  | cons c cs ih =>
    simp only [List.all_cons, Bool.and_eq_true, Bool.not_eq_true', beq_eq_false_iff_ne,
      ne_eq] at h
    have hall : (cs.all fun c => !(c == ':')) = true := h.2
    rw [List.cons_append]
    show (if c = ':' then some ([], cs ++ ':' :: rest)
          else
            match breakAtColon (cs ++ ':' :: rest) with
            | none => none
            | some p => some (c :: p.1, p.2)) = some (c :: cs, rest)
    rw [if_neg h.1, ih hall]

lemma isBlankLine_colon (k : Str) (rest : Str) :
    isBlankLine (k ++ ':' :: rest) = false := by
  unfold isBlankLine
  have hc : (':' : Char).isWhitespace = false := by decide
  simp [List.all_append, List.all_cons, hc]

lemma firstNonWs_colon (k : Str) (rest : Str) :
    firstNonWs (k ++ ':' :: rest) =
      match firstNonWs k with
      | some c => some c
      | none => some ':' := by
  unfold firstNonWs
  induction k with
  | nil =>
    have hc : (':' : Char).isWhitespace = false := by decide
    simp [List.dropWhile, hc]
  | cons c cs ih =>
    by_cases hw : c.isWhitespace = true
    · simp only [List.cons_append, List.dropWhile_cons, hw, if_true]
      exact ih
    · simp only [List.cons_append, List.dropWhile_cons, hw]
      simp [List.head?]

lemma isCommentLine_colon (k : Str) (rest : Str)
    (h : (firstNonWs k == some '#') = false) :
    isCommentLine (k ++ ':' :: rest) = false := by
  unfold isCommentLine
  rw [firstNonWs_colon]
  cases hf : firstNonWs k with
  | none => decide
  | some c =>
    rw [hf] at h
    simpa using h

lemma parseLines_kv_cons (k v : Str) (ls : Content) (m : KV)
    (hk : goodKey k = true) :
    parseLines (kvLine k v :: ls) m = parseLines ls (insertKV m k v) := by
  unfold goodKey at hk
  simp only [Bool.and_eq_true, Bool.not_eq_true'] at hk
  obtain ⟨⟨⟨hne, hcolon⟩, _hnl⟩, hhash⟩ := hk
  rw [parseLines_cons]
  rw [if_neg (by rw [kvLine, isBlankLine_colon]; exact Bool.false_ne_true)]
  rw [if_neg (by rw [kvLine, isCommentLine_colon k _ hhash]; exact Bool.false_ne_true)]
  rw [show breakAtColon (kvLine k v) = some (k, ' ' :: v) from
    breakAtColon_kvLine k _ hcolon]
  simp only [hne, Bool.false_eq_true, if_false]
  rw [show dropLeadSpace (' ' :: v) = v from rfl]

lemma parseLines_skip_cons (l : Str) (ls : Content) (m : KV)
    (h : isBlankLine l = true ∨ isCommentLine l = true) :
    parseLines (l :: ls) m = parseLines ls m := by
  rw [parseLines_cons]
  rcases h with h | h
  · rw [if_pos h]
  · by_cases hb : isBlankLine l = true
    · rw [if_pos hb]
    · rw [if_neg hb, if_pos h]

lemma isBlankLine_nil : isBlankLine [] = true := rfl

lemma isCommentLine_hash (rest : Str) : isCommentLine ('#' :: rest) = true := by
  unfold isCommentLine firstNonWs
  have hh : ('#' : Char).isWhitespace = false := by decide
  simp [List.dropWhile, hh, List.head?]

lemma colon_mem_of_prefix (k l : Str) (h : (k ++ [':']).isPrefixOf l = true) :
    ':' ∈ l := by
  obtain ⟨t, ht⟩ := List.isPrefixOf_iff_prefix.mp h
  rw [← ht]
  simp

lemma replLine_blank (k v l : Str) (hb : isBlankLine l = true) :
    replLine k v l = l := by
  unfold replLine
  by_cases hp : (k ++ [':']).isPrefixOf l = true
  · have hmem := colon_mem_of_prefix k l hp
    unfold isBlankLine at hb
    rw [List.all_eq_true] at hb
    have := hb ':' hmem
    simp at this
  · rw [if_neg hp]

lemma goodKey_parts (k : Str) (h : goodKey k = true) :
    k.isEmpty = false ∧ (k.all fun c => !(c == ':')) = true
      ∧ (firstNonWs k == some '#') = false := by
  unfold goodKey at h
  simp only [Bool.and_eq_true, Bool.not_eq_true'] at h
  exact ⟨h.1.1.1, h.1.1.2, h.2⟩

lemma replLine_comment (k v l : Str) (hk : goodKey k = true)
    (hc : isCommentLine l = true) : replLine k v l = l := by
  unfold replLine
  by_cases hp : (k ++ [':']).isPrefixOf l = true
  · obtain ⟨t, ht⟩ := List.isPrefixOf_iff_prefix.mp hp
    obtain ⟨-, -, hhash⟩ := goodKey_parts k hk
    rw [← ht, List.append_assoc] at hc
    rw [show ([':'] ++ t : Str) = ':' :: t from rfl] at hc
    rw [isCommentLine_colon k t hhash] at hc
    cases hc
  · rw [if_neg hp]

lemma breakAtColon_decomp (l : Str) : ∀ a b : Str, breakAtColon l = some (a, b) →
    l = a ++ ':' :: b ∧ (a.all fun c => !(c == ':')) = true := by
  induction l with
  | nil => intro a b h; cases h
  | cons c cs ih =>
    intro a b h
    by_cases hc : c = ':'
    · rw [show breakAtColon (c :: cs) =
          (if c = ':' then some ([], cs)
           else
             match breakAtColon cs with
             | none => none
             | some p => some (c :: p.1, p.2)) from rfl, if_pos hc] at h
      obtain ⟨ha, hb⟩ := Prod.mk.injEq .. ▸ Option.some_inj.mp h
      subst ha hb
      subst hc
      exact ⟨rfl, rfl⟩
    · rw [show breakAtColon (c :: cs) =
          (if c = ':' then some ([], cs)
           else
             match breakAtColon cs with
             | none => none
             | some p => some (c :: p.1, p.2)) from rfl, if_neg hc] at h
      cases hbr : breakAtColon cs with
      | none => rw [hbr] at h; cases h
      | some p =>
        rw [hbr] at h
        obtain ⟨ha, hb⟩ := Prod.mk.injEq .. ▸ Option.some_inj.mp h
        obtain ⟨hcs, hall⟩ := ih p.1 p.2 (by rw [hbr])
        subst hb
        rw [← ha, hcs]
        constructor
        · rfl
        · simp only [List.all_cons, Bool.and_eq_true]
          exact ⟨by simp [hc], hall⟩

lemma prefix_key_eq (k : Str) : ∀ a b : Str,
    (k.all fun c => !(c == ':')) = true → (a.all fun c => !(c == ':')) = true →
    (k ++ [':']).isPrefixOf (a ++ ':' :: b) = true → k = a := by
  induction k with
  | nil =>
    intro a b _ ha h
    cases a with
    | nil => rfl
    | cons d a' =>
      obtain ⟨t, ht⟩ := List.isPrefixOf_iff_prefix.mp h
      simp only [List.nil_append, List.cons_append, List.cons.injEq] at ht
      simp only [List.all_cons, Bool.and_eq_true, Bool.not_eq_true',
        beq_eq_false_iff_ne, ne_eq] at ha
      exact absurd ht.1.symm ha.1
  | cons c k' ih =>
    intro a b hk ha h
    cases a with
    | nil =>
      obtain ⟨t, ht⟩ := List.isPrefixOf_iff_prefix.mp h
      simp only [List.cons_append, List.nil_append, List.cons.injEq] at ht
      simp only [List.all_cons, Bool.and_eq_true, Bool.not_eq_true',
        beq_eq_false_iff_ne, ne_eq] at hk
      exact absurd ht.1 hk.1
    | cons d a' =>
      obtain ⟨t, ht⟩ := List.isPrefixOf_iff_prefix.mp h
      simp only [List.cons_append, List.cons.injEq] at ht
      simp only [List.all_cons, Bool.and_eq_true] at hk ha
      have hrec : k' = a' := by
        apply ih a' b hk.2 ha.2
        rw [List.isPrefixOf_iff_prefix]
        exact ⟨t, ht.2⟩
      rw [ht.1, hrec]

lemma replLine_kv_eq (k v l b : Str) (_hk : goodKey k = true)
    (hbr : breakAtColon l = some (k, b)) : replLine k v l = kvLine k v := by
  obtain ⟨hl, _⟩ := breakAtColon_decomp l k b hbr
  unfold replLine
  rw [if_pos]
  rw [hl, List.isPrefixOf_iff_prefix]
  exact ⟨b, by rw [List.append_assoc]; rfl⟩

lemma replLine_kv_ne (k v l a b : Str) (hk : goodKey k = true)
    (hbr : breakAtColon l = some (a, b)) (hne : a ≠ k) : replLine k v l = l := by
  obtain ⟨hl, hall⟩ := breakAtColon_decomp l a b hbr
  obtain ⟨-, hkall, -⟩ := goodKey_parts k hk
  unfold replLine
  rw [if_neg]
  intro hp
  rw [hl] at hp
  exact hne (prefix_key_eq k a b hkall hall hp).symm

lemma setIfPresent_insertKV_indep (m : KV) (k w w' v : Str) :
    setIfPresent (insertKV m k w) k v = setIfPresent (insertKV m k w') k v := by
  unfold insertKV
  by_cases h : hasKey m k = true
  · rw [if_pos h, if_pos h, setIfPresent_setIfPresent, setIfPresent_setIfPresent]
  · have hf : hasKey m k = false := Bool.eq_false_iff.mpr h
    rw [hf]
    simp only [Bool.false_eq_true, if_false]
    rw [setIfPresent_append, setIfPresent_append]
    simp [setIfPresent]

lemma parseLines_map_repl (k v : Str) (hk : goodKey k = true) (c : Content) :
    ∀ m M : KV, parseLines c m = some M →
      parseLines (c.map (replLine k v)) (setIfPresent m k v) =
        some (setIfPresent M k v) := by
  induction c with
  | nil =>
    intro m M h
    rw [show parseLines ([] : Content) m = some m from rfl] at h
    rw [Option.some_inj.mp h]
    rfl
  | cons l ls ih =>
    intro m M h
    by_cases hb : isBlankLine l = true ∨ isCommentLine l = true
    · rw [parseLines_skip_cons l ls m hb] at h
      have hrepl : replLine k v l = l := by
        rcases hb with hb | hb
        · exact replLine_blank k v l hb
        · exact replLine_comment k v l hk hb
      rw [List.map_cons, hrepl, parseLines_skip_cons l _ _ hb]
      exact ih m M h
    · push_neg at hb
      have hb1 : ¬ isBlankLine l = true := hb.1
      have hb2 : ¬ isCommentLine l = true := hb.2
      rw [parseLines_cons, if_neg hb1, if_neg hb2] at h
      cases hbr : breakAtColon l with
      | none => rw [hbr] at h; cases h
      | some p =>
        rw [hbr] at h
        dsimp only at h
        by_cases hke : p.1.isEmpty = true
        · rw [if_pos hke] at h; cases h
        · rw [if_neg hke] at h
          by_cases hpk : p.1 = k
          · have hrepl : replLine k v l = kvLine k v :=
              replLine_kv_eq k v l p.2 hk (by rw [hbr, ← hpk])
            rw [List.map_cons, hrepl, parseLines_kv_cons k v _ _ hk]
            rw [insertKV_setIfPresent_self m k v v,
              setIfPresent_insertKV_indep m k v (dropLeadSpace p.2) v]
            rw [hpk] at h
            exact ih _ M h
          · have hrepl : replLine k v l = l :=
              replLine_kv_ne k v l p.1 p.2 hk (by rw [hbr]) hpk
            rw [List.map_cons, hrepl, parseLines_cons, if_neg hb1, if_neg hb2, hbr]
            dsimp only
            rw [if_neg hke]
            rw [insertKV_setIfPresent_ne m k v p.1 (dropLeadSpace p.2)
              (fun hh => hpk hh)]
            exact ih _ M h

lemma parseLines_nodup (c : Content) : ∀ m M : KV, (keysOf m).Nodup →
    parseLines c m = some M → (keysOf M).Nodup := by
  induction c with
  | nil =>
    intro m M hm h
    rw [show parseLines ([] : Content) m = some m from rfl] at h
    rw [← Option.some_inj.mp h]
    exact hm
  | cons l ls ih =>
    intro m M hm h
    by_cases hb : isBlankLine l = true ∨ isCommentLine l = true
    · rw [parseLines_skip_cons l ls m hb] at h
      exact ih m M hm h
    · push_neg at hb
      rw [parseLines_cons, if_neg hb.1, if_neg hb.2] at h
      cases hbr : breakAtColon l with
      | none => rw [hbr] at h; cases h
      | some p =>
        rw [hbr] at h
        dsimp only at h
        by_cases hke : p.1.isEmpty = true
        · rw [if_pos hke] at h; cases h
        · rw [if_neg hke] at h
          exact ih _ M (nodup_keysOf_insertKV m p.1 _ hm) h

lemma commentPart_skip (msg : Str) (ls : Content) (m : KV) :
    parseLines ((if msg.isEmpty then [] else ['#' :: ' ' :: msg]) ++ ls) m
      = parseLines ls m := by
  by_cases h : msg.isEmpty = true
  · rw [if_pos h, List.nil_append]
  · rw [if_neg h]
    rw [show (['#' :: ' ' :: msg] ++ ls : Content) = ('#' :: ' ' :: msg) :: ls from rfl]
    exact parseLines_skip_cons _ _ _ (Or.inr (isCommentLine_hash _))

lemma parseLines_addLines (raw : Content) (m : KV) (k v msg : Str)
    (hk : goodKey k = true) (hp : parseLines raw [] = some m) :
    parseLines (raw ++ [kvLine k v]
        ++ (if msg.isEmpty then [] else ['#' :: ' ' :: msg]) ++ [[]]) []
      = some (insertKV m k v) := by
  rw [List.append_assoc, List.append_assoc, parseLines_append, hp]
  rw [Option.some_bind]
  rw [show ([kvLine k v] ++ ((if msg.isEmpty then [] else ['#' :: ' ' :: msg]) ++ [[]])
        : Content) = kvLine k v :: ((if msg.isEmpty then [] else ['#' :: ' ' :: msg])
        ++ [[]]) from rfl]
  rw [parseLines_kv_cons k v _ _ hk, commentPart_skip]
  rw [parseLines_skip_cons _ _ _ (Or.inl isBlankLine_nil)]
  rfl

lemma reconcile_fold_values (template : Content) (l : List (Str × Str)) :
    ∀ (st : PropertiesState) (m : KV),
      (∀ p ∈ l, goodKey p.1 = true) → (keysOf l).Nodup →
      st.values = some m → parseLines st.raw [] = some m → m ≠ [] →
      ((l.foldl
          (fun s p =>
            if hasKey (s.values.getD []) p.1 then s
            else Properties.addValue s p.1 p.2 (Properties.commentFor template p.1))
          st).values = some (m ++ l.filter (fun p => !(hasKey m p.1)))
        ∧ parseLines ((l.foldl
          (fun s p =>
            if hasKey (s.values.getD []) p.1 then s
            else Properties.addValue s p.1 p.2 (Properties.commentFor template p.1))
          st).raw) [] = some (m ++ l.filter (fun p => !(hasKey m p.1)))) := by
  induction l with
  | nil =>
    intro st m _ _ hv hr _
    simp only [List.foldl_nil, List.filter_nil, List.append_nil]
    exact ⟨hv, hr⟩
  | cons p rest ih =>
    intro st m hgood hnd hv hr hm
    simp only [keysOf, List.map_cons, List.nodup_cons] at hnd
    rw [List.foldl_cons]
    by_cases hhas : hasKey m p.1 = true
    · rw [if_pos (by rw [hv]; exact hhas)]
      have hstep := ih st m (fun q hq => hgood q (List.mem_cons_of_mem p hq))
        (by rw [keysOf]; exact hnd.2) hv hr hm
      rw [List.filter_cons]
      simp only [hhas, Bool.not_true, Bool.false_eq_true, if_false]
      exact hstep
    · have hhasf : hasKey m p.1 = false := Bool.eq_false_iff.mpr hhas
      have hcond : ¬ (hasKey (st.values.getD []) p.1 = true) := by
        rw [hv]
        rw [show ((some m).getD [] : KV) = m from rfl, hhasf]
        exact Bool.false_ne_true
      rw [if_neg hcond]
      rw [show Properties.addValue st p.1 p.2 (Properties.commentFor template p.1)
          = Properties.addValueCore st p.1 p.2 (Properties.commentFor template p.1) from by
        unfold Properties.addValue
        rw [if_neg hcond]]
      set raw2 := st.raw ++ [kvLine p.1 p.2]
        ++ (if (Properties.commentFor template p.1).isEmpty then []
            else ['#' :: ' ' :: Properties.commentFor template p.1]) ++ [[]] with hraw2
      have hparse2 : parseLines raw2 [] = some (insertKV m p.1 p.2) :=
        parseLines_addLines st.raw m p.1 p.2 _ (hgood p (List.mem_cons_self p rest)) hr
      have hins : insertKV m p.1 p.2 = m ++ [p] := by
        rw [insertKV_of_not_has m p.1 p.2 hhasf]
      have hne2 : insertKV m p.1 p.2 ≠ [] := by
        rw [hins]
        intro hx
        cases (List.append_eq_nil.mp hx).2
      have hpc : parseContent raw2 = some (insertKV m p.1 p.2) := by
        rw [parseContent_eq_some]
        exact ⟨hparse2, hne2⟩
      have hstate : (Properties.addValueCore st p.1 p.2
          (Properties.commentFor template p.1)).values = some (insertKV m p.1 p.2) ∧
          parseLines (Properties.addValueCore st p.1 p.2
            (Properties.commentFor template p.1)).raw [] = some (insertKV m p.1 p.2) := by
        unfold Properties.addValueCore Properties.write
        constructor
        · simp only [← hraw2]
          exact hpc
        · simp only [← hraw2]
          exact hparse2
      have hstep := ih (Properties.addValueCore st p.1 p.2
          (Properties.commentFor template p.1)) (insertKV m p.1 p.2)
        (fun q hq => hgood q (List.mem_cons_of_mem p hq))
        (by rw [keysOf]; exact hnd.2) hstate.1 hstate.2 hne2
      rw [hins] at hstep
      have hfilter : rest.filter (fun q => !(hasKey (m ++ [p]) q.1))
          = rest.filter (fun q => !(hasKey m q.1)) := by
        apply List.filter_congr
        intro q hq
        rw [hasKey_append]
        have hqne : (p.1 == q.1) = false := by
          have : q.1 ∈ keysOf rest := by
            rw [keysOf, List.mem_map]
            exact ⟨q, hq, rfl⟩
          have hne := fun hh : p.1 = q.1 => hnd.1 (hh ▸ this)
          simp only [beq_eq_false_iff_ne, ne_eq]
          exact hne
        rw [show hasKey [p] q.1 = (p.1 == q.1) from by simp [hasKey], hqne]
        simp
      rw [hfilter] at hstep
      rw [List.filter_cons]
      simp only [hhasf, Bool.not_false, if_true]
      rw [show (m ++ p :: rest.filter (fun q => !(hasKey m q.1)) : KV)
          = (m ++ [p]) ++ rest.filter (fun q => !(hasKey m q.1)) from by
        rw [List.append_assoc]; rfl]
      exact hstep

lemma foldl_reconcile_noop (template : Content) (st : PropertiesState) (m : KV)
    (hv : st.values = some m) :
    ∀ defs : List (Str × Str), (∀ p ∈ defs, hasKey m p.1 = true) →
      defs.foldl
        (fun s p =>
          if hasKey (s.values.getD []) p.1 then s
          else Properties.addValue s p.1 p.2 (Properties.commentFor template p.1))
        st = st := by
  intro defs
  induction defs with
  | nil => intro _; rfl
  | cons p rest ih =>
    intro hall
    rw [List.foldl_cons, if_pos (by rw [hv]; exact hall p (List.mem_cons_self p rest))]
    exact ih (fun q hq => hall q (List.mem_cons_of_mem p hq))

lemma reconcile_noop (template : Content) (st : PropertiesState) (m : KV)
    (hv : st.values = some m)
    (hall : ∀ p : Str × Str, p ∈ (parseContent template).getD [] → hasKey m p.1 = true) :
    Properties.reconcile template st = st := by
  unfold Properties.reconcile
  cases ht : parseContent template with
  | none => rfl
  | some defs =>
    rw [ht] at hall
    simp only [Option.getD_some] at hall
    dsimp only
    exact foldl_reconcile_noop template st m hv defs hall

lemma parseContent_nodup (c : Content) (m : KV) (h : parseContent c = some m) :
    (keysOf m).Nodup := by
  obtain ⟨hp, -⟩ := (parseContent_eq_some c m).mp h
  exact parseLines_nodup c [] m List.nodup_nil hp

lemma reconcile_values (template : Content) (st : PropertiesState) (m defs : KV)
    (ht : parseContent template = some defs)
    (hgood : ∀ p ∈ defs, goodKey p.1 = true)
    (hv : st.values = some m) (hr : parseLines st.raw [] = some m) (hm : m ≠ []) :
    (Properties.reconcile template st).values
      = some (m ++ defs.filter (fun p => !(hasKey m p.1))) := by
  unfold Properties.reconcile
  rw [ht]
  dsimp only
  exact (reconcile_fold_values template defs st m hgood
    (parseContent_nodup template defs ht) hv hr hm).1

lemma hasKey_of_mem (m : KV) (p : Str × Str) (h : p ∈ m) : hasKey m p.1 = true := by
  rw [hasKey_iff_mem, keysOf, List.mem_map]
  exact ⟨p, h, rfl⟩

lemma construct_absent_eq (template : Content) (defs : KV)
    (ht : parseContent template = some defs) :
    Properties.construct template none
      = Properties.reconcile template ⟨some template, template, some defs⟩ := by
  unfold Properties.construct
  dsimp only
  rw [show Properties.read template ⟨none, [], none⟩
      = ⟨some template, template, parseContent template⟩ from rfl, ht]
  rfl

lemma construct_bad_eq (template c : Content) (defs : KV)
    (hbad : parseContent c = none) (ht : parseContent template = some defs) :
    Properties.construct template (some c)
      = Properties.reconcile template ⟨some template, template, some defs⟩ := by
  unfold Properties.construct
  dsimp only
  rw [show Properties.read template ⟨some c, [], none⟩
      = ⟨some c, c, parseContent c⟩ from rfl, hbad]
  rw [show ((⟨some c, c, none⟩ : PropertiesState).values.isSome : Bool) = false from rfl]
  rw [show Properties.read template ⟨none, c, none⟩
      = ⟨some template, template, parseContent template⟩ from rfl, ht]
  rfl

lemma construct_live_eq (template c : Content) (m : KV)
    (hc : parseContent c = some m) :
    Properties.construct template (some c)
      = Properties.reconcile template ⟨some c, c, some m⟩ := by
  unfold Properties.construct
  dsimp only
  rw [show Properties.read template ⟨some c, [], none⟩
      = ⟨some c, c, parseContent c⟩ from rfl, hc]
  rfl

lemma reconcile_template_state (template : Content) (defs : KV)
    (ht : parseContent template = some defs) :
    Properties.reconcile template ⟨some template, template, some defs⟩
      = ⟨some template, template, some defs⟩ := by
  apply reconcile_noop template _ defs rfl
  intro p hp
  rw [ht] at hp
  simp only [Option.getD_some] at hp
  exact hasKey_of_mem defs p hp

/-- C1: constructing a `Properties` store against a directory whose backing
file does not yet exist produces an in-memory `values` mapping equal to the
template's parsed default mapping — exactly the template's keys, each bound
to its default value. -/
theorem properties_construct_fresh_yields_defaults (template : Content) (defs : KV)
    (ht : parseContent template = some defs) :
    (Properties.construct template none).values = some defs := by
  rw [construct_absent_eq template defs ht, reconcile_template_state template defs ht]

/-- Witness for C1 at a concrete template. -/
theorem properties_construct_fresh_yields_defaults_witness :
    (Properties.construct
        [['d','e','b','u','g',':',' ','f','a','l','s','e'],
         ['#',' ','e','n','a','b','l','e',' ','l','o','g','s'],
         ['p','o','r','t',':',' ','8','0','8','0']] none).values
      = some [(['d','e','b','u','g'], ['f','a','l','s','e']),
              (['p','o','r','t'], ['8','0','8','0'])] :=
  properties_construct_fresh_yields_defaults _ _ (by decide)

/-- C2: constructing a `Properties` store against an existing file whose
content is unparsable completes without raising: the corrupted file is
deleted and rewritten from the template, and construction ends with the
backing file, the raw text and the values all matching the template. -/
theorem properties_construct_regenerates_invalid (template c : Content) (defs : KV)
    (hbad : parseContent c = none) (ht : parseContent template = some defs) :
    Properties.construct template (some c)
      = ⟨some template, template, some defs⟩ := by
  rw [construct_bad_eq template c defs hbad ht, reconcile_template_state template defs ht]

/-- Witness for C2 at a concrete corrupted file. -/
theorem properties_construct_regenerates_invalid_witness :
    Properties.construct
        [['p','o','r','t',':',' ','8','0','8','0']]
        (some [['n','o','t',' ','a',' ','m','a','p','p','i','n','g']])
      = ⟨some [['p','o','r','t',':',' ','8','0','8','0']],
         [['p','o','r','t',':',' ','8','0','8','0']],
         some [(['p','o','r','t'], ['8','0','8','0'])]⟩ :=
  properties_construct_regenerates_invalid _ _ _ (by decide) (by decide)

lemma hasKey_filter_iff (m defs : KV) (k : Str) :
    hasKey (defs.filter (fun p => !(hasKey m p.1))) k = true
      ↔ (hasKey defs k = true ∧ hasKey m k = false) := by
  constructor
  · intro h
    rw [hasKey_iff_mem, keysOf, List.mem_map] at h
    obtain ⟨p, hp, hpk⟩ := h
    rw [List.mem_filter] at hp
    constructor
    · rw [← hpk]
      exact hasKey_of_mem defs p hp.1
    · have := hp.2
      rw [Bool.not_eq_true'] at this
      rw [← hpk]
      exact this
  · rintro ⟨h1, h2⟩
    rw [hasKey_iff_mem, keysOf, List.mem_map] at h1 ⊢
    obtain ⟨p, hp, hpk⟩ := h1
    refine ⟨p, ?_, hpk⟩
    rw [List.mem_filter]
    refine ⟨hp, ?_⟩
    rw [hpk, h2]
    rfl

lemma nodup_keysOf_filter (defs : KV) (f : Str × Str → Bool)
    (h : (keysOf defs).Nodup) : (keysOf (defs.filter f)).Nodup := by
  unfold keysOf at h ⊢
  exact h.sublist (List.Sublist.map Prod.fst (List.filter_sublist defs))

/-- C5: the constructor's reconciliation is one-directional.  Opening a
store over a live, parsable file yields the live mapping extended with
exactly the template-default keys it was missing: the whole mapping is the
live entries followed by the filtered defaults, keys of the result are the
union, every live key keeps its current value, and every missing template
key gets its default. -/
theorem properties_reconcile_one_directional (template c : Content) (m defs : KV)
    (hc : parseContent c = some m) (ht : parseContent template = some defs)
    (hgood : ∀ p ∈ defs, goodKey p.1 = true) :
    (Properties.construct template (some c)).values
        = some (m ++ defs.filter (fun p => !(hasKey m p.1)))
      ∧ (∀ k, hasKey ((Properties.construct template (some c)).values.getD []) k = true
          ↔ (hasKey m k = true ∨ hasKey defs k = true))
      ∧ (∀ k, hasKey m k = true →
          Properties.getValue (Properties.construct template (some c)) k = getKV m k)
      ∧ (∀ p ∈ defs, hasKey m p.1 = false →
          Properties.getValue (Properties.construct template (some c)) p.1
            = some p.2) := by
  have hpl : parseLines c [] = some m := ((parseContent_eq_some _ _).mp hc).1
  have hm : m ≠ [] := ((parseContent_eq_some _ _).mp hc).2
  have hvals : (Properties.construct template (some c)).values
      = some (m ++ defs.filter (fun p => !(hasKey m p.1))) := by
    rw [construct_live_eq template c m hc]
    exact reconcile_values template _ m defs ht hgood rfl hpl hm
  refine ⟨hvals, ?_, ?_, ?_⟩
  · intro k
    rw [hvals]
    simp only [Option.getD_some]
    rw [hasKey_append]
    constructor
    · intro h
      rcases Bool.or_eq_true_iff.mp h with h | h
      · exact Or.inl h
      · exact Or.inr ((hasKey_filter_iff m defs k).mp h).1
    · intro h
      rcases h with h | h
      · rw [h, Bool.true_or]
      · by_cases hmk : hasKey m k = true
        · rw [hmk, Bool.true_or]
        · have h2 := (hasKey_filter_iff m defs k).mpr ⟨h, Bool.eq_false_iff.mpr hmk⟩
          rw [h2, Bool.or_true]
  · intro k hmk
    unfold Properties.getValue
    rw [hvals]
    simp only [Option.getD_some]
    exact getKV_append_left _ _ _ hmk
  · intro p hp hmf
    unfold Properties.getValue
    rw [hvals]
    simp only [Option.getD_some]
    rw [getKV_append_right _ _ _ hmf]
    apply getKV_eq_of_mem
    · exact nodup_keysOf_filter defs _ (parseContent_nodup template defs ht)
    · rw [List.mem_filter]
      exact ⟨hp, by rw [hmf]; rfl⟩

/-- Witness for C5: reopening with a template that adds a `timeout` key
appends that key with its default while the live, non-default `port` value
survives. -/
theorem properties_reconcile_one_directional_witness :
    (Properties.construct
        [['p','o','r','t',':',' ','8','0','8','0'],
         ['t','i','m','e','o','u','t',':',' ','3','0']]
        (some [['p','o','r','t',':',' ','9','0','9','0']])).values
        = some [(['p','o','r','t'], ['9','0','9','0']),
                (['t','i','m','e','o','u','t'], ['3','0'])]
      ∧ ((∀ k, hasKey ((Properties.construct
            [['p','o','r','t',':',' ','8','0','8','0'],
             ['t','i','m','e','o','u','t',':',' ','3','0']]
            (some [['p','o','r','t',':',' ','9','0','9','0']])).values.getD []) k = true
          ↔ (hasKey [(['p','o','r','t'], ['9','0','9','0'])] k = true
             ∨ hasKey [(['p','o','r','t'], ['8','0','8','0']),
                       (['t','i','m','e','o','u','t'], ['3','0'])] k = true))) := by
  have h := properties_reconcile_one_directional
    [['p','o','r','t',':',' ','8','0','8','0'],
     ['t','i','m','e','o','u','t',':',' ','3','0']]
    [['p','o','r','t',':',' ','9','0','9','0']]
    [(['p','o','r','t'], ['9','0','9','0'])]
    [(['p','o','r','t'], ['8','0','8','0']), (['t','i','m','e','o','u','t'], ['3','0'])]
    (by decide) (by decide) (by decide)
  exact ⟨h.1, h.2.1⟩

/-- C3: after `setValue` on a key already present, `getValue` returns the
new value, and re-opening the store from the rewritten on-disk file also
returns it. -/
theorem properties_set_get_reload_roundtrip (template : Content)
    (st : PropertiesState) (m defs : KV) (k v : Str)
    (hv : st.values = some m) (hr : parseContent st.raw = some m)
    (hk : hasKey m k = true) (hgk : goodKey k = true) (_hgv : goodVal v = true)
    (ht : parseContent template = some defs)
    (hgood : ∀ p ∈ defs, goodKey p.1 = true) :
    Properties.getValue (Properties.setValue st k v) k = some v
    ∧ Properties.getValue
        (Properties.construct template (Properties.setValue st k v).file) k
      = some v := by
  have hpl : parseLines st.raw [] = some m := ((parseContent_eq_some _ _).mp hr).1
  have hm : m ≠ [] := ((parseContent_eq_some _ _).mp hr).2
  have hcond : hasKey (st.values.getD []) k = true := by rw [hv]; exact hk
  have hfile : (Properties.setValue st k v).file
      = some (st.raw.map (replLine k v)) := by
    unfold Properties.setValue
    rw [if_pos hcond]
    rfl
  have hvals : (Properties.setValue st k v).values
      = parseContent (st.raw.map (replLine k v)) := by
    unfold Properties.setValue
    rw [if_pos hcond]
    rfl
  have hpl2 : parseLines (st.raw.map (replLine k v)) [] = some (setIfPresent m k v) := by
    have h := parseLines_map_repl k v hgk st.raw [] m hpl
    rw [show setIfPresent [] k v = [] from rfl] at h
    exact h
  have hne2 : setIfPresent m k v ≠ [] := setIfPresent_ne_nil m k v hm
  have hpc2 : parseContent (st.raw.map (replLine k v)) = some (setIfPresent m k v) :=
    (parseContent_eq_some _ _).mpr ⟨hpl2, hne2⟩
  constructor
  · unfold Properties.getValue
    rw [hvals, hpc2]
    simp only [Option.getD_some]
    exact getKV_setIfPresent_self m k v hk
  · rw [hfile, construct_live_eq template _ _ hpc2]
    unfold Properties.getValue
    rw [reconcile_values template _ (setIfPresent m k v) defs ht hgood rfl hpl2 hne2]
    simp only [Option.getD_some]
    rw [getKV_append_left _ _ _ (by rw [hasKey_setIfPresent]; exact hk)]
    exact getKV_setIfPresent_self m k v hk

/-- Witness for C3: the spec scenario, setting `port` to `9090` and
reloading. -/
theorem properties_set_get_reload_roundtrip_witness :
    Properties.getValue
        (Properties.setValue
          ⟨some [['p','o','r','t',':',' ','8','0','8','0']],
           [['p','o','r','t',':',' ','8','0','8','0']],
           some [(['p','o','r','t'], ['8','0','8','0'])]⟩
          ['p','o','r','t'] ['9','0','9','0']) ['p','o','r','t']
      = some ['9','0','9','0']
    ∧ Properties.getValue
        (Properties.construct [['p','o','r','t',':',' ','8','0','8','0']]
          (Properties.setValue
            ⟨some [['p','o','r','t',':',' ','8','0','8','0']],
             [['p','o','r','t',':',' ','8','0','8','0']],
             some [(['p','o','r','t'], ['8','0','8','0'])]⟩
            ['p','o','r','t'] ['9','0','9','0']).file) ['p','o','r','t']
      = some ['9','0','9','0'] :=
  properties_set_get_reload_roundtrip
    [['p','o','r','t',':',' ','8','0','8','0']]
    ⟨some [['p','o','r','t',':',' ','8','0','8','0']],
     [['p','o','r','t',':',' ','8','0','8','0']],
     some [(['p','o','r','t'], ['8','0','8','0'])]⟩
    [(['p','o','r','t'], ['8','0','8','0'])]
    [(['p','o','r','t'], ['8','0','8','0'])]
    ['p','o','r','t'] ['9','0','9','0']
    rfl (by decide) (by decide) (by decide) (by decide) (by decide) (by decide)

/-- C10: the mutual delegation between `setValue` and `addValue`
terminates with a delegation chain of length at most one: fuel 2 always
suffices (for any state, key and value), and the result agrees with the
direct one-step-unfolded definitions. -/
theorem properties_mutual_delegation_terminates (st : PropertiesState)
    (k v msg : Str) (n : Nat) :
    setValueFuel (n + 2) st k v = some (Properties.setValue st k v)
    ∧ addValueFuel (n + 2) st k v msg = some (Properties.addValue st k v msg) := by
  have hs : setValueFuel (n + 2) st k v
      = (if hasKey (st.values.getD []) k then some (Properties.setValueCore st k v)
         else addValueFuel (n + 1) st k v []) := rfl
  have ha : addValueFuel (n + 2) st k v msg
      = (if hasKey (st.values.getD []) k then setValueFuel (n + 1) st k v
         else some (Properties.addValueCore st k v msg)) := rfl
  have ha1 : addValueFuel (n + 1) st k v []
      = (if hasKey (st.values.getD []) k then setValueFuel n st k v
         else some (Properties.addValueCore st k v [])) := rfl
  have hs1 : setValueFuel (n + 1) st k v
      = (if hasKey (st.values.getD []) k then some (Properties.setValueCore st k v)
         else addValueFuel n st k v []) := rfl
  by_cases h : hasKey (st.values.getD []) k = true
  · constructor
    · rw [hs, if_pos h]
      unfold Properties.setValue
      rw [if_pos h]
    · rw [ha, if_pos h, hs1, if_pos h]
      unfold Properties.addValue
      rw [if_pos h]
  · constructor
    · rw [hs, if_neg h, ha1, if_neg h]
      unfold Properties.setValue
      rw [if_neg h]
    · rw [ha, if_neg h]
      unfold Properties.addValue
      rw [if_neg h]

lemma getLastD_app (l : List Str) (x : Str) : ∀ d : Str, (l ++ [x]).getLastD d = x := by
  induction l with
  | nil => intro d; rfl
  | cons a l ih =>
    intro d
    rw [List.cons_append, List.getLastD_cons]
    exact ih a

lemma writeSqlite_proj (wfail : Bool) (s : StorageState) (k v : Str) :
    (Storage.writeSqlite wfail s k v).values = s.values
    ∧ (Storage.writeSqlite wfail s k v).stype = s.stype := by
  unfold Storage.writeSqlite Storage.upsert
  cases wfail
  · exact ⟨rfl, rfl⟩
  · exact ⟨rfl, rfl⟩

lemma writeSqlite_fold_proj (wfail : Bool) (l : KV) : ∀ s : StorageState,
    ((l.foldl (fun s p => Storage.writeSqlite wfail s p.1 p.2) s).values = s.values
    ∧ (l.foldl (fun s p => Storage.writeSqlite wfail s p.1 p.2) s).stype = s.stype) := by
  induction l with
  | nil => intro s; exact ⟨rfl, rfl⟩
  | cons p rest ih =>
    intro s
    rw [List.foldl_cons]
    obtain ⟨h1, h2⟩ := ih (Storage.writeSqlite wfail s p.1 p.2)
    obtain ⟨g1, g2⟩ := writeSqlite_proj wfail s p.1 p.2
    exact ⟨by rw [h1, g1], by rw [h2, g2]⟩

lemma initStorage_values_eq (env : StorageEnv) (st : StorageState) :
    (Storage.initStorage env st).values =
      (match st.stype with
       | Backend.json =>
         match st.jsonFile with
         | none => st.values
         | some none => st.values
         | some (some data) => spreadMerge st.values data
       | Backend.sqlite =>
         if env.dbReadFails then st.values
         else spreadMerge st.values (Storage.buildObj st.db)) := by
  obtain ⟨ty, vals, jf, db, logs⟩ := st
  unfold Storage.initStorage
  cases ty with
  | json =>
    cases jf with
    | none =>
      dsimp only
      cases hdbg : env.debug <;> rfl
    | some inner =>
      cases inner with
      | none =>
        dsimp only
        unfold Storage.readJson
        dsimp only
        cases hdbg : env.debug <;> rfl
      | some data =>
        dsimp only
        unfold Storage.readJson
        dsimp only
        cases hdbg : env.debug <;> rfl
  | sqlite =>
    dsimp only
    unfold Storage.readSqlite
    cases hrf : env.dbReadFails with
    | false =>
      dsimp only
      by_cases hemp : db.isEmpty = true
      · rw [if_pos hemp]
        cases hdbg : env.debug
        · exact (writeSqlite_fold_proj env.dbWriteFails _ _).1
        · exact (writeSqlite_fold_proj env.dbWriteFails _ _).1
      · rw [if_neg hemp]
        cases hdbg : env.debug <;> rfl
    | true =>
      dsimp only
      cases hdbg : env.debug <;> rfl

lemma initStorage_stype (env : StorageEnv) (st : StorageState) :
    (Storage.initStorage env st).stype = st.stype := by
  obtain ⟨ty, vals, jf, db, logs⟩ := st
  unfold Storage.initStorage
  cases ty with
  | json =>
    cases jf with
    | none =>
      dsimp only
      cases hdbg : env.debug <;> rfl
    | some inner =>
      cases inner with
      | none =>
        dsimp only
        unfold Storage.readJson
        dsimp only
        cases hdbg : env.debug <;> rfl
      | some data =>
        dsimp only
        unfold Storage.readJson
        dsimp only
        cases hdbg : env.debug <;> rfl
  | sqlite =>
    dsimp only
    unfold Storage.readSqlite
    cases hrf : env.dbReadFails with
    | false =>
      dsimp only
      by_cases hemp : db.isEmpty = true
      · rw [if_pos hemp]
        cases hdbg : env.debug
        · exact (writeSqlite_fold_proj env.dbWriteFails _ _).2
        · exact (writeSqlite_fold_proj env.dbWriteFails _ _).2
      · rw [if_neg hemp]
        cases hdbg : env.debug <;> rfl
    | true =>
      dsimp only
      cases hdbg : env.debug <;> rfl

lemma setValue_values (wfail : Bool) (st : StorageState) (k v : Str) :
    (Storage.setValue wfail st k v).values = insertKV st.values k v := by
  obtain ⟨ty, vals, jf, db, logs⟩ := st
  unfold Storage.setValue
  dsimp only
  cases ty with
  | json => rfl
  | sqlite => exact (writeSqlite_proj wfail _ k v).1

lemma construct_ok_cases (env : StorageEnv) (type : StorageType) (cwd : List Str)
    (path : Str) (world : Option Str) (defaults : KV) (st : StorageState)
    (h : Storage.construct env type cwd path world defaults = .ok st) :
    st = Storage.initStorage env
        ⟨Backend.json, defaults, env.jsonFile, env.dbRows, []⟩
    ∨ st = Storage.initStorage env
        ⟨Backend.sqlite, defaults, env.jsonFile, env.dbRows, []⟩ := by
  unfold Storage.construct at h
  cases hres : Storage.resolvePath type cwd path world with
  | error e => rw [hres] at h; cases h
  | ok p =>
    rw [hres] at h
    dsimp only at h
    by_cases h1 : extname (p.getLastD []) = ['.','j','s','o','n']
    · rw [if_pos h1] at h
      injection h with hh
      exact Or.inl hh.symm
    · rw [if_neg h1] at h
      by_cases h2 : extname (p.getLastD []) = ['.','s','q','l','i','t','e']
      · rw [if_pos h2] at h
        injection h with hh
        exact Or.inr hh.symm
      · rw [if_neg h2] at h
        cases h

lemma resolvePath_ok_last (type : StorageType) (cwd : List Str) (path : Str)
    (world : Option Str)
    (hw : ¬ (type = StorageType.world ∧ (world = none ∨ world = some []))) :
    ∃ p, Storage.resolvePath type cwd path world = .ok p
      ∧ p.getLastD [] = path := by
  cases type with
  | world =>
    cases world with
    | none => exact absurd ⟨rfl, Or.inl rfl⟩ hw
    | some w =>
      have hwne : ¬ w.isEmpty = true := by
        intro hx
        exact hw ⟨rfl, Or.inr (by rw [List.isEmpty_iff.mp hx])⟩
      refine ⟨_, by unfold Storage.resolvePath; dsimp only; rw [if_neg hwne], ?_⟩
      rw [show ([['w','o','r','l','d','s'], w,
          ['p','l','u','g','i','n','d','a','t','a'], path] : List Str)
        = [['w','o','r','l','d','s'], w,
           ['p','l','u','g','i','n','d','a','t','a']] ++ [path] from rfl]
      rw [← List.append_assoc]
      exact getLastD_app _ path []
  | player =>
    refine ⟨_, rfl, ?_⟩
    rw [show ([['p','l','a','y','e','r','d','a','t','a'], path] : List Str)
      = [['p','l','a','y','e','r','d','a','t','a']] ++ [path] from rfl]
    rw [← List.append_assoc]
    exact getLastD_app _ path []
  | server =>
    refine ⟨_, rfl, ?_⟩
    rw [show ([['p','l','u','g','i','n','d','a','t','a'], path] : List Str)
      = [['p','l','u','g','i','n','d','a','t','a']] ++ [path] from rfl]
    rw [← List.append_assoc]
    exact getLastD_app _ path []

lemma foldl_insert_nodup (rows : KV) : ∀ m : KV, (keysOf m).Nodup →
    (keysOf (rows.foldl (fun m p => insertKV m p.1 p.2) m)).Nodup := by
  induction rows with
  | nil => intro m h; exact h
  | cons p rest ih =>
    intro m h
    rw [List.foldl_cons]
    exact ih _ (nodup_keysOf_insertKV m p.1 p.2 h)

lemma buildObj_nodup (rows : KV) : (keysOf (Storage.buildObj rows)).Nodup :=
  foldl_insert_nodup rows [] List.nodup_nil

/-- C7: `Storage` construction fails, surfacing an error to the caller
rather than defaulting, exactly when the file extension is neither `.json`
nor `.sqlite`, or the domain is World and no (or an empty) world name is
supplied.  The domain enum is spec-modelled with exactly the three domains
Player, World and Server, so the source's defensive invalid-domain branch
is unreachable. -/
theorem storage_construct_error_iff (env : StorageEnv) (type : StorageType)
    (cwd : List Str) (path : Str) (world : Option Str) (defaults : KV) :
    (Storage.construct env type cwd path world defaults).toOption = none
      ↔ ((type = StorageType.world ∧ (world = none ∨ world = some []))
         ∨ (¬ extname path = ['.','j','s','o','n']
            ∧ ¬ extname path = ['.','s','q','l','i','t','e'])) := by
  by_cases hw : type = StorageType.world ∧ (world = none ∨ world = some [])
  · obtain ⟨hty, hwv⟩ := hw
    subst hty
    have hres : Storage.resolvePath StorageType.world cwd path world
        = .error StorageErr.invalidWorldName := by
      cases world with
      | none => rfl
      | some w =>
        rcases hwv with h | h
        · cases h
        · have hwe : w = [] := Option.some_inj.mp h
          subst hwe
          rfl
    constructor
    · intro _
      exact Or.inl ⟨rfl, hwv⟩
    · intro _
      unfold Storage.construct
      rw [hres]
      rfl
  · obtain ⟨p, hres, hlast⟩ := resolvePath_ok_last type cwd path world hw
    unfold Storage.construct
    rw [hres]
    dsimp only
    rw [hlast]
    by_cases h1 : extname path = ['.','j','s','o','n']
    · rw [if_pos h1]
      constructor
      · intro hx
        exact absurd hx (Option.some_ne_none _)
      · intro hx
        rcases hx with hx | hx
        · exact absurd hx hw
        · exact absurd h1 hx.1
    · rw [if_neg h1]
      by_cases h2 : extname path = ['.','s','q','l','i','t','e']
      · rw [if_pos h2]
        constructor
        · intro hx
          exact absurd hx (Option.some_ne_none _)
        · intro hx
          rcases hx with hx | hx
          · exact absurd hx hw
          · exact absurd h2 hx.2
      · rw [if_neg h2]
        constructor
        · intro _
          exact Or.inr ⟨h1, h2⟩
        · intro _
          rfl

/-- C4: after construction the in-memory values of a `Storage` contain
every default key; for keys present in both defaults and the persisted
data the persisted value is the one held, for both backends; and
`setValue` can only add keys, so the floor is preserved by every
subsequent operation. -/
theorem storage_values_defaults_floor (env : StorageEnv) (type : StorageType)
    (cwd : List Str) (path : Str) (world : Option Str) (defaults : KV)
    (st : StorageState)
    (h : Storage.construct env type cwd path world defaults = .ok st) :
    (∀ k, hasKey defaults k = true → hasKey st.values k = true)
    ∧ (∀ data : KV, env.jsonFile = some (some data) → st.stype = Backend.json →
        (keysOf data).Nodup →
        ∀ k, hasKey data k = true → getKV st.values k = getKV data k)
    ∧ (st.stype = Backend.sqlite → env.dbReadFails = false →
        ∀ k, hasKey (Storage.buildObj env.dbRows) k = true →
          getKV st.values k = getKV (Storage.buildObj env.dbRows) k)
    ∧ (∀ (st' : StorageState) (wfail : Bool) (k v k' : Str),
        hasKey st'.values k' = true →
        hasKey (Storage.setValue wfail st' k v).values k' = true) := by
  have hpres : ∀ (st' : StorageState) (wfail : Bool) (k v k' : Str),
      hasKey st'.values k' = true →
      hasKey (Storage.setValue wfail st' k v).values k' = true := by
    intro st' wfail k v k' hk'
    rw [setValue_values, hasKey_insertKV, hk']
    rfl
  rcases construct_ok_cases env type cwd path world defaults st h with hst | hst
  · subst hst
    refine ⟨?_, ?_, ?_, hpres⟩
    · intro k hk
      rw [initStorage_values_eq]
      dsimp only
      cases hjf : env.jsonFile with
      | none => exact hk
      | some inner =>
        cases inner with
        | none => exact hk
        | some data => exact hasKey_spreadMerge_left defaults data k hk
    · intro data hdata _ hnd k hk
      rw [initStorage_values_eq]
      dsimp only
      rw [hdata]
      exact getKV_spreadMerge_right defaults data k hnd hk
    · intro hstype
      rw [initStorage_stype] at hstype
      cases hstype
  · subst hst
    refine ⟨?_, ?_, ?_, hpres⟩
    · intro k hk
      rw [initStorage_values_eq]
      dsimp only
      cases hrf : env.dbReadFails with
      | true => exact hk
      | false => exact hasKey_spreadMerge_left defaults _ k hk
    · intro data _ hstype _ _ _
      rw [initStorage_stype] at hstype
      cases hstype
    · intro _ hrf k hk
      rw [initStorage_values_eq]
      dsimp only
      rw [hrf]
      simp only [Bool.false_eq_true, if_false]
      exact getKV_spreadMerge_right defaults _ k (buildObj_nodup env.dbRows) hk

/-- Witness for C4: a flat-file store whose persisted data overrides one
default. -/
theorem storage_values_defaults_floor_witness :
    (∀ k, hasKey [(['a'], ['1']), (['b'], ['0'])] k = true →
        hasKey (StorageState.mk Backend.json [(['a'], ['2']), (['b'], ['0'])]
          (some (some [(['a'], ['2'])])) [] []).values k = true)
    ∧ (∀ data : KV,
        (StorageEnv.mk (some (some [(['a'], ['2'])])) [] false false false).jsonFile
            = some (some data) →
        (StorageState.mk Backend.json [(['a'], ['2']), (['b'], ['0'])]
          (some (some [(['a'], ['2'])])) [] []).stype = Backend.json →
        (keysOf data).Nodup →
        ∀ k, hasKey data k = true →
          getKV (StorageState.mk Backend.json [(['a'], ['2']), (['b'], ['0'])]
            (some (some [(['a'], ['2'])])) [] []).values k = getKV data k)
    ∧ ((StorageState.mk Backend.json [(['a'], ['2']), (['b'], ['0'])]
          (some (some [(['a'], ['2'])])) [] []).stype = Backend.sqlite →
        (StorageEnv.mk (some (some [(['a'], ['2'])])) [] false false false).dbReadFails
          = false →
        ∀ k, hasKey (Storage.buildObj
            (StorageEnv.mk (some (some [(['a'], ['2'])])) [] false false false).dbRows)
            k = true →
          getKV (StorageState.mk Backend.json [(['a'], ['2']), (['b'], ['0'])]
              (some (some [(['a'], ['2'])])) [] []).values k
            = getKV (Storage.buildObj
              (StorageEnv.mk (some (some [(['a'], ['2'])])) [] false false false).dbRows) k)
    ∧ (∀ (st' : StorageState) (wfail : Bool) (k v k' : Str),
        hasKey st'.values k' = true →
        hasKey (Storage.setValue wfail st' k v).values k' = true) :=
  storage_values_defaults_floor
    (StorageEnv.mk (some (some [(['a'], ['2'])])) [] false false false)
    StorageType.player [] ['f', '.', 'j', 's', 'o', 'n'] none
    [(['a'], ['1']), (['b'], ['0'])]
    (StorageState.mk Backend.json [(['a'], ['2']), (['b'], ['0'])]
      (some (some [(['a'], ['2'])])) [] [])
    (by rfl)

/-- C6: in the embedded-table backend a failing single-row upsert is
caught: `setValue` returns normally, the error is reported, the table row
is left unwritten, and the in-memory value still holds the new value. -/
theorem storage_sqlite_set_failure_nonfatal (st : StorageState) (k v : Str)
    (h : st.stype = Backend.sqlite) :
    Storage.getValue (Storage.setValue true st k v) k = some v
    ∧ (Storage.setValue true st k v).db = st.db
    ∧ (Storage.setValue true st k v).logs
        = st.logs ++ [LogMsg.sqliteWriteError] := by
  obtain ⟨ty, vals, jf, db, logs⟩ := st
  subst h
  unfold Storage.setValue Storage.writeSqlite Storage.upsert Storage.getValue
  dsimp only
  exact ⟨getKV_insertKV_self vals k v, rfl, rfl⟩

/-- Witness for C6. -/
theorem storage_sqlite_set_failure_nonfatal_witness :
    Storage.getValue (Storage.setValue true
        (StorageState.mk Backend.sqlite [(['a'], ['1'])] none [(['a'], ['1'])] [])
        ['a'] ['2']) ['a'] = some ['2']
    ∧ (Storage.setValue true
        (StorageState.mk Backend.sqlite [(['a'], ['1'])] none [(['a'], ['1'])] [])
        ['a'] ['2']).db = [(['a'], ['1'])]
    ∧ (Storage.setValue true
        (StorageState.mk Backend.sqlite [(['a'], ['1'])] none [(['a'], ['1'])] [])
        ['a'] ['2']).logs = [] ++ [LogMsg.sqliteWriteError] :=
  storage_sqlite_set_failure_nonfatal
    (StorageState.mk Backend.sqlite [(['a'], ['1'])] none [(['a'], ['1'])] [])
    ['a'] ['2'] rfl

lemma initStorage_json_badfile (env : StorageEnv) (defaults : KV)
    (hfile : env.jsonFile = some none) (hdbg : env.debug = true) :
    Storage.initStorage env ⟨Backend.json, defaults, env.jsonFile, env.dbRows, []⟩
      = ⟨Backend.json, defaults, some none, env.dbRows,
         [LogMsg.jsonReadWarn, LogMsg.parsedOk]⟩ := by
  unfold Storage.initStorage Storage.readJson
  dsimp only
  rw [hfile, hdbg]
  rfl

/-- C8 (amended): opening a flat-file store over an existing file that
fails to deserialize does not raise and does not touch the file: the
values are exactly the supplied defaults, and — when debug/verbose mode is
enabled — a warning diagnostic is emitted. -/
theorem storage_json_bad_file_defaults_warn (env : StorageEnv)
    (type : StorageType) (cwd : List Str) (path : Str) (world : Option Str)
    (defaults : KV)
    (hfile : env.jsonFile = some none) (hdbg : env.debug = true)
    (hext : extname path = ['.','j','s','o','n'])
    (hw : ¬ (type = StorageType.world ∧ (world = none ∨ world = some []))) :
    Storage.construct env type cwd path world defaults
      = .ok ⟨Backend.json, defaults, some none, env.dbRows,
             [LogMsg.jsonReadWarn, LogMsg.parsedOk]⟩ := by
  obtain ⟨p, hres, hlast⟩ := resolvePath_ok_last type cwd path world hw
  unfold Storage.construct
  rw [hres]
  dsimp only
  rw [hlast, if_pos hext]
  rw [initStorage_json_badfile env defaults hfile hdbg]

/-- Witness for the amended C8. -/
theorem storage_json_bad_file_defaults_warn_witness :
    Storage.construct (StorageEnv.mk (some none) [] false false true)
        StorageType.player [] ['f', '.', 'j', 's', 'o', 'n'] none [(['a'], ['1'])]
      = .ok ⟨Backend.json, [(['a'], ['1'])], some none, [],
             [LogMsg.jsonReadWarn, LogMsg.parsedOk]⟩ :=
  storage_json_bad_file_defaults_warn
    (StorageEnv.mk (some none) [] false false true) StorageType.player []
    ['f', '.', 'j', 's', 'o', 'n'] none [(['a'], ['1'])]
    rfl rfl (by decide) (by intro hx; cases hx.1)

/-- Counterexample to C8 as stated: with debug disabled, the same failed
deserialization emits no diagnostic at all (the log list stays empty),
even though the load still falls back to the defaults and leaves the file
untouched; the claim's unconditional "a warning diagnostic is emitted" is
false on this run. -/
theorem storage_json_bad_file_quiet_no_diagnostic :
    Storage.construct (StorageEnv.mk (some none) [] false false false)
        StorageType.player [] ['f', '.', 'j', 's', 'o', 'n'] none [(['a'], ['1'])]
      = .ok ⟨Backend.json, [(['a'], ['1'])], some none, [], []⟩ := by
  rfl

lemma splitChar_cons (sep c : Char) (cs : Str) :
    splitChar sep (c :: cs) =
      (if c = sep then [] :: splitChar sep cs
       else
         match splitChar sep cs with
         | [] => [[c]]
         | h :: t => (c :: h) :: t) := rfl

lemma splitChar_ne_nil (sep : Char) (s : Str) : splitChar sep s ≠ [] := by
  cases s with
  | nil => exact fun h => by cases h
  | cons c cs =>
    rw [splitChar_cons]
    by_cases h : c = sep
    · rw [if_pos h]
      exact fun hx => by cases hx
    · rw [if_neg h]
      cases splitChar sep cs with
      | nil => exact fun hx => by cases hx
      | cons a t => exact fun hx => by cases hx

lemma splitChar_append_sep (sep : Char) (b : Str) : ∀ a : Str,
    splitChar sep (a ++ sep :: b) = splitChar sep a ++ splitChar sep b := by
  intro a
  induction a with
  | nil =>
    rw [List.nil_append, splitChar_cons, if_pos rfl]
    rfl
  | cons c cs ih =>
    rw [List.cons_append, splitChar_cons, splitChar_cons, ih]
    by_cases h : c = sep
    · rw [if_pos h, if_pos h]
      rfl
    · rw [if_neg h, if_neg h]
      cases hcs : splitChar sep cs with
      | nil => exact absurd hcs (splitChar_ne_nil sep cs)
      | cons x t => rfl

lemma splitChar_no_sep (sep : Char) (s : Str)
    (h : (s.all fun c => !(c == sep)) = true) : splitChar sep s = [s] := by
  induction s with
  | nil => rfl
  | cons c cs ih =>
    simp only [List.all_cons, Bool.and_eq_true, Bool.not_eq_true',
      beq_eq_false_iff_ne, ne_eq] at h
    rw [splitChar_cons, if_neg h.1, ih h.2]

lemma normStep_of_clean (sep : Char) (acc : List Str) (s : Str)
    (h : cleanSeg sep s = true) : normStep acc s = acc ++ [s] := by
  unfold cleanSeg at h
  simp only [Bool.and_eq_true, Bool.not_eq_true'] at h
  unfold normStep
  rw [if_neg (by rw [h.1.1.1]; exact Bool.false_ne_true)]
  rw [if_neg (by
    intro hx
    rw [hx] at h
    simp at h)]
  rw [if_neg (by
    intro hx
    rw [hx] at h
    simp at h)]

lemma replaceFirst_at (pat rep tail : Str) : ∀ root : Str,
    ((List.range root.length).all
      (fun i => !(pat.isPrefixOf ((root ++ pat ++ tail).drop i)))) = true →
    replaceFirst pat rep (root ++ pat ++ tail) = root ++ rep ++ tail := by
  intro root
  induction root with
  | nil =>
    intro _
    rw [List.nil_append, List.nil_append]
    cases hpt : pat ++ tail with
    | nil =>
      obtain ⟨hp, ht⟩ := List.append_eq_nil.mp hpt
      subst hp
      subst ht
      show (if ([] : Str).isEmpty then rep else []) = rep ++ []
      simp
    | cons c cs =>
      show (if pat.isPrefixOf (c :: cs) then rep ++ (c :: cs).drop pat.length
            else c :: replaceFirst pat rep cs) = rep ++ tail
      have hpre : pat.isPrefixOf (c :: cs) = true := by
        rw [← hpt, List.isPrefixOf_iff_prefix]
        exact ⟨tail, rfl⟩
      rw [if_pos hpre, ← hpt, List.drop_left]
  | cons c root' ih =>
    intro h
    have hall := List.all_eq_true.mp h
    have h0 : ¬ pat.isPrefixOf (((c :: root') ++ pat ++ tail).drop 0) = true := by
      have := hall 0 (by
        rw [List.mem_range, List.length_cons]
        exact Nat.succ_pos _)
      simp only [Bool.not_eq_true'] at this
      rw [this]
      exact Bool.false_ne_true
    rw [List.drop_zero] at h0
    rw [List.cons_append, List.cons_append]
    show (if pat.isPrefixOf (c :: (root' ++ pat ++ tail))
          then rep ++ (c :: (root' ++ pat ++ tail)).drop pat.length
          else c :: replaceFirst pat rep (root' ++ pat ++ tail))
        = c :: (root' ++ rep ++ tail)
    rw [if_neg (by
      intro hx
      apply h0
      rw [List.cons_append, List.cons_append]
      exact hx)]
    rw [ih (by
      rw [List.all_eq_true]
      intro i hi
      rw [List.mem_range] at hi
      have := hall (i + 1) (by
        rw [List.mem_range, List.length_cons]
        exact Nat.succ_lt_succ hi)
      rw [show (((c :: root') ++ pat ++ tail).drop (i + 1))
          = ((root' ++ pat ++ tail).drop i) from by
        rw [List.cons_append, List.cons_append]
        rfl] at this
      exact this)]

/-- C9 (amended): when the host plugin path has the Windows shape
`<root>\plugins\<dir>` the source's hard-coded backslash substitution
applies, and the resolved backing path is `<root>\config\<consumerId>\<file>`
— the `config` directory keyed by the consumer identifier. -/
theorem properties_path_windows_config_layout (root name identifier relPath : Str)
    (hocc : ((List.range root.length).all
        (fun i => !((['\\','p','l','u','g','i','n','s','\\'] : Str).isPrefixOf
          ((root ++ ['\\','p','l','u','g','i','n','s','\\'] ++ name).drop i)))) = true)
    (hn : cleanSeg '\\' name = true) (hi : cleanSeg '\\' identifier = true)
    (hf : cleanSeg '\\' relPath = true) :
    propertiesPath (root ++ ['\\','p','l','u','g','i','n','s','\\'] ++ name)
        identifier relPath '\\'
      = rootSegs '\\' root ++ [['c','o','n','f','i','g'], identifier, relPath] := by
  unfold propertiesPath
  rw [replaceFirst_at _ _ name root hocc]
  unfold resolveSegs
  rw [show ([root ++ ['\\','c','o','n','f','i','g','\\'] ++ name,
      ['.','.'], identifier, relPath].flatMap (splitChar '\\') : List Str)
    = splitChar '\\' (root ++ ['\\','c','o','n','f','i','g','\\'] ++ name)
      ++ (splitChar '\\' ['.','.'] ++ (splitChar '\\' identifier
        ++ (splitChar '\\' relPath ++ []))) from rfl]
  rw [show (root ++ ['\\','c','o','n','f','i','g','\\'] ++ name : Str)
    = root ++ '\\' :: (['c','o','n','f','i','g'] ++ '\\' :: name) from by
      rw [List.append_assoc]
      rfl]
  rw [splitChar_append_sep '\\' (['c','o','n','f','i','g'] ++ '\\' :: name) root]
  rw [splitChar_append_sep '\\' name ['c','o','n','f','i','g']]
  rw [show splitChar '\\' ['c','o','n','f','i','g'] = [['c','o','n','f','i','g']] from rfl]
  rw [splitChar_no_sep '\\' name (by
    unfold cleanSeg at hn
    simp only [Bool.and_eq_true] at hn
    exact hn.1.1.2)]
  rw [splitChar_no_sep '\\' identifier (by
    unfold cleanSeg at hi
    simp only [Bool.and_eq_true] at hi
    exact hi.1.1.2)]
  rw [splitChar_no_sep '\\' relPath (by
    unfold cleanSeg at hf
    simp only [Bool.and_eq_true] at hf
    exact hf.1.1.2)]
  rw [show splitChar '\\' ['.','.'] = [['.','.']] from rfl]
  rw [show (splitChar '\\' root ++ ([['c','o','n','f','i','g']] ++ [name])
        ++ ([['.','.']] ++ ([identifier] ++ ([relPath] ++ []))) : List Str)
    = splitChar '\\' root ++ ([['c','o','n','f','i','g']] ++ ([name]
        ++ ([['.','.']] ++ ([identifier] ++ [relPath])))) from by
      simp [List.append_assoc]]
  rw [List.foldl_append]
  rw [show (List.foldl normStep [] (splitChar '\\' root) : List Str)
    = rootSegs '\\' root from rfl]
  rw [List.foldl_append, List.foldl_append, List.foldl_append, List.foldl_append]
  rw [show (List.foldl normStep (rootSegs '\\' root) [['c','o','n','f','i','g']]
      : List Str) = normStep (rootSegs '\\' root) ['c','o','n','f','i','g'] from rfl]
  rw [normStep_of_clean '\\' _ _ (by decide)]
  rw [show (List.foldl normStep (rootSegs '\\' root ++ [['c','o','n','f','i','g']])
      [name] : List Str)
    = normStep (rootSegs '\\' root ++ [['c','o','n','f','i','g']]) name from rfl]
  rw [normStep_of_clean '\\' _ _ hn]
  rw [show (List.foldl normStep
      ((rootSegs '\\' root ++ [['c','o','n','f','i','g']]) ++ [name]) [['.','.']]
      : List Str)
    = normStep ((rootSegs '\\' root ++ [['c','o','n','f','i','g']]) ++ [name])
        ['.','.'] from rfl]
  rw [show (normStep ((rootSegs '\\' root ++ [['c','o','n','f','i','g']]) ++ [name])
      ['.','.'] : List Str)
    = ((rootSegs '\\' root ++ [['c','o','n','f','i','g']]) ++ [name]).dropLast
      from rfl]
  rw [List.dropLast_concat]
  rw [show (List.foldl normStep (rootSegs '\\' root ++ [['c','o','n','f','i','g']])
      [identifier] : List Str)
    = normStep (rootSegs '\\' root ++ [['c','o','n','f','i','g']]) identifier
      from rfl]
  rw [normStep_of_clean '\\' _ _ hi]
  rw [show (List.foldl normStep
      ((rootSegs '\\' root ++ [['c','o','n','f','i','g']]) ++ [identifier])
      [relPath] : List Str)
    = normStep ((rootSegs '\\' root ++ [['c','o','n','f','i','g']]) ++ [identifier])
        relPath from rfl]
  rw [normStep_of_clean '\\' _ _ hf]
  simp [List.append_assoc]

/-- Witness for the amended C9, at a concrete Windows-style plugin path. -/
theorem properties_path_windows_config_layout_witness :
    propertiesPath
        (['C',':','\\','s','r','v'] ++ ['\\','p','l','u','g','i','n','s','\\']
          ++ ['m','y','p','l','u','g','i','n'])
        ['s','c','o','n','f','i','g'] ['c','o','n','f','.','y','a','m','l'] '\\'
      = rootSegs '\\' ['C',':','\\','s','r','v']
        ++ [['c','o','n','f','i','g'], ['s','c','o','n','f','i','g'],
            ['c','o','n','f','.','y','a','m','l']] :=
  properties_path_windows_config_layout ['C',':','\\','s','r','v']
    ['m','y','p','l','u','g','i','n'] ['s','c','o','n','f','i','g']
    ['c','o','n','f','.','y','a','m','l']
    (by decide) (by decide) (by decide) (by decide)

/-- Counterexample to C9 as stated: with a POSIX-style plugin path
(forward-slash separators) the hard-coded `\plugins\` substitution never
matches, so the store resolves under the plugins directory, not under
`<root>/config/<consumerId>/<file>`. -/
theorem properties_path_posix_not_config_layout :
    propertiesPath
        ['/','s','r','v','/','p','l','u','g','i','n','s','/','m','y','p','l','u',
         'g','i','n']
        ['s','c','o','n','f','i','g'] ['c','o','n','f','.','y','a','m','l'] '/'
      = [['s','r','v'], ['p','l','u','g','i','n','s'], ['s','c','o','n','f','i','g'],
         ['c','o','n','f','.','y','a','m','l']]
    ∧ ¬ (propertiesPath
        ['/','s','r','v','/','p','l','u','g','i','n','s','/','m','y','p','l','u',
         'g','i','n']
        ['s','c','o','n','f','i','g'] ['c','o','n','f','.','y','a','m','l'] '/'
      = rootSegs '/' ['/','s','r','v']
        ++ [['c','o','n','f','i','g'], ['s','c','o','n','f','i','g'],
            ['c','o','n','f','.','y','a','m','l']]) := by
  constructor
  · decide
  · decide

end SConfig
